import Mathlib

/-!
# gosql: a shallow embedding of the query executor, parser and tokenizer

The development follows `main.go`.  Go strings are modelled as lists of
Unicode characters (`Str`): the program only ever iterates over strings rune by
rune or compares them for equality, so for well-formed UTF-8 text the two views
agree.  Functions that return `(value, error)` return `Except QueryError value`;
a run-time index panic is the distinguished error `QueryError.indexOutOfRange`.

Two things the program takes from its environment are parameters of the
embedding:

* `up : Char → Char`, the Unicode upper-case table consulted by
  `strings.ToUpper` for non-ASCII runes;
* `readAll : Str → Option (List (List Str))`, the records that
  `os.Open` followed by `csv.Reader.ReadAll` yields for a file name
  (`none` when either of them fails).

The main loop of `parseSQL` is modelled with a bound on the number of its
iterations (`parseLoop`); the bound is the number of tokens, it is never
exhausted and a larger one changes nothing (`parseLoop_fuel`,
`parseLoop_fuel_eq`).  `parseStep` is one iteration of that loop and `Reaches`
the states the loop goes through.

The range loop of `executeQuery` takes the address of its loop variable
(`whereClause = &node`); the embedding follows the per-iteration loop variable
semantics of the Go language (Go 1.22 and later), under which the pointer keeps
designating the WHERE node it was taken from.
-/

namespace Gosql

/-- Go `string`, seen as its sequence of runes. -/
abbrev Str := List Char

/-! ## Data model (`main.go`, lines 12-24) -/

/-- The flat clause node of the program; the field `Type` is spelled `Type_`. -/
structure SQLNode where
  Type_ : Str
  Value : Str
  Left : Str
  Operator : Str
  Right : Str
deriving DecidableEq, Repr

/-- An in-memory table. -/
structure Table where
  Name : Str
  Headers : List Str
  Rows : List (List Str)
deriving DecidableEq, Repr

/-- One constructor per `fmt.Errorf` site of the program, plus the loader's
failures, the run-time index panic, and `outOfFuel`, which the bounded model of
the parser loop returns when its bound is exhausted (`parseSQL` never does). -/
inductive QueryError where
  | fileNotFound (tableName : Str)
  | invalidLimitValue (value : Str)
  | limitNegative
  | noFromClause
  | columnNotFound (col : Str)
  | unsupportedOperator
  | limitRequiresValue
  | unexpectedToken (token : Str)
  | readFailed
  | emptyCSVFile
  | indexOutOfRange
  | outOfFuel
deriving DecidableEq, Repr

/-- The text each error carries in the program. -/
def QueryError.message : QueryError → Str
  | .fileNotFound n => "file '".toList ++ n ++ ".csv' not found".toList
  | .invalidLimitValue v => "invalid LIMIT value: ".toList ++ v
  | .limitNegative => "LIMIT value must be non-negative".toList
  | .noFromClause => "no FROM clause found or table could not be loaded".toList
  | .columnNotFound c => "column ".toList ++ c ++ " not found in table".toList
  | .unsupportedOperator =>
      "only equality (=) operator is supported in WHERE clause".toList
  | .limitRequiresValue => "LIMIT clause requires a value".toList
  | .unexpectedToken t => "unexpected token: ".toList ++ t
  | .readFailed => "read failed".toList
  | .emptyCSVFile => "empty CSV file".toList
  | .indexOutOfRange => "index out of range".toList
  | .outOfFuel => "out of fuel".toList

/-! ## Library functions used by the program -/

/-- Go `unicode.ToUpper`: ASCII letters are handled inline, every other rune
goes through the Unicode case table `up`. -/
def toUpperRune (up : Char → Char) (r : Char) : Char :=
  if r.toNat ≤ 127 then
    (if 'a'.toNat ≤ r.toNat ∧ r.toNat ≤ 'z'.toNat then Char.ofNat (r.toNat - 32) else r)
  else up r

/-- Go `strings.ToUpper` on well-formed text: every rune is upper-cased. -/
def ToUpper (up : Char → Char) (s : Str) : Str :=
  s.map (toUpperRune up)

/-- Value of a run of decimal digits; `none` when a character is not a digit. -/
def digitsValue : Str → Nat → Option Nat
  | [], acc => some acc
  | ch :: rest, acc =>
      if '0'.toNat ≤ ch.toNat ∧ ch.toNat ≤ '9'.toNat then
        digitsValue rest (acc * 10 + (ch.toNat - '0'.toNat))
      else none

/-- Go `strconv.Atoi` for a 64-bit `int`: an optional sign, then at least one
decimal digit, and the value has to fit the `int` range; `none` stands for a
returned error. -/
def Atoi (s : Str) : Option Int :=
  let neg : Bool := match s with
    | '-' :: _ => true
    | _ => false
  let body : Str := match s with
    | '-' :: rest => rest
    | '+' :: rest => rest
    | _ => s
  match body with
  | [] => none
  | _ :: _ =>
    match digitsValue body 0 with
    | none => none
    | some v =>
      if neg then (if v ≤ 2 ^ 63 then some (-(v : Int)) else none)
      else (if v < 2 ^ 63 then some (v : Int) else none)

/-- Scanning loop of `strings.Split` for a non-empty separator: `skip` counts
the characters of a separator occurrence still to be passed over, `cur` is the
piece being accumulated. -/
def splitGo (sep : Str) : Nat → Str → Str → List Str
  | _, cur, [] => [cur]
  | skip + 1, cur, _ :: cs => splitGo sep skip cur cs
  | 0, cur, c :: cs =>
      if sep.isPrefixOf (c :: cs) then cur :: splitGo sep (sep.length - 1) [] cs
      else splitGo sep 0 (cur ++ [c]) cs

/-- Go `strings.Split s sep` for a non-empty `sep`: the pieces between the
non-overlapping occurrences of `sep`, found left to right. -/
def Split (s sep : Str) : List Str :=
  splitGo sep 0 [] s

/-- Go `strings.TrimSuffix`. -/
def TrimSuffix (s suffix : Str) : Str :=
  if (suffix.reverse).isPrefixOf s.reverse then (s.reverse.drop suffix.length).reverse else s

/-! ## Table loader (`main.go`, lines 185-212) -/

/-- The loader: fails when the file cannot be read or has no record; otherwise
the first record, upper-cased, gives the headers and the rest the rows. -/
def loadCSVTable (up : Char → Char) (readAll : Str → Option (List (List Str)))
    (filename : Str) : Except QueryError Table :=
  match readAll filename with
  | none => .error .readFailed
  | some [] => .error .emptyCSVFile
  | some (header :: rows) =>
      .ok { Name := TrimSuffix filename ".csv".toList
            Headers := header.map (ToUpper up)
            Rows := rows }

/-! ## Executor (`main.go`, lines 69-183) -/

/-- The four local variables the clause scan of `executeQuery` accumulates. -/
structure ScanState where
  table : Option Table
  limit : Int
  selectedColumns : Option (List Str)
  whereClause : Option SQLNode
deriving DecidableEq, Repr

/-- Initial values: no table, limit `-1`, nil column list, nil WHERE pointer. -/
def ScanState.init : ScanState :=
  { table := none, limit := -1, selectedColumns := none, whereClause := none }

/-- One iteration of the clause scan (the `switch node.Type`). -/
def scanNode (up : Char → Char) (readAll : Str → Option (List (List Str)))
    (st : ScanState) (node : SQLNode) : Except QueryError ScanState :=
  if node.Type_ = "SELECT".toList then
    if node.Value = "*".toList then .ok { st with selectedColumns := none }
    else .ok { st with selectedColumns := some (Split node.Value ", ".toList) }
  else if node.Type_ = "FROM".toList then
    match loadCSVTable up readAll (node.Value ++ ".csv".toList) with
    | .error _ => .error (.fileNotFound node.Value)
    | .ok loadedTable => .ok { st with table := some loadedTable }
  else if node.Type_ = "WHERE".toList then
    .ok { st with whereClause := some node }
  else if node.Type_ = "LIMIT".toList then
    match Atoi node.Value with
    | none => .error (.invalidLimitValue node.Value)
    | some n => if n < 0 then .error .limitNegative else .ok { st with limit := n }
  else .ok st

/-- The clause scan: left to right, stopping at the first error. -/
def scanClauses (up : Char → Char) (readAll : Str → Option (List (List Str))) :
    ScanState → List SQLNode → Except QueryError ScanState
  | st, [] => .ok st
  | st, node :: rest =>
      match scanNode up readAll st node with
      | .error e => .error e
      | .ok st2 => scanClauses up readAll st2 rest

/-- Position of the first header equal to `col`, if any. -/
def headerIndex (col : Str) : List Str → Option Nat
  | [] => none
  | header :: rest =>
      if col = header then some 0 else (headerIndex col rest).map (· + 1)

/-- Resolution of an explicit column list: fails at the first unknown name. -/
def resolveColumns (headers : List Str) : List Str → Except QueryError (List Nat)
  | [] => .ok []
  | col :: rest =>
      match headerIndex col headers with
      | none => .error (.columnNotFound col)
      | some i =>
          match resolveColumns headers rest with
          | .error e => .error e
          | .ok is => .ok (i :: is)

/-- The `columnIndices` of the program: all positions for a nil column list. -/
def columnIndices (headers : List Str) : Option (List Str) → Except QueryError (List Nat)
  | none => .ok (List.range headers.length)
  | some cols => resolveColumns headers cols

/-- The cells of `row` at the positions `idxs`, in that order; `none` when a
position is out of range (the program panics). -/
def selectCells (row : List Str) : List Nat → Option (List Str)
  | [] => some []
  | idx :: rest =>
      match row[idx]?, selectCells row rest with
      | some v, some vs => some (v :: vs)
      | _, _ => none

/-- The WHERE test on one row. -/
def evaluateWhereClause (node : SQLNode) (headers : List Str) (row : List Str) :
    Except QueryError Bool :=
  if node.Operator ≠ "=".toList then .error .unsupportedOperator
  else
    match headerIndex node.Left headers with
    | none => .error (.columnNotFound node.Left)
    | some leftIndex =>
        match row[leftIndex]? with
        | none => .error .indexOutOfRange
        | some leftValue => .ok (decide (leftValue = node.Right))

/-- The loop over the data rows; `result` is the slice built so far. -/
def rowLoop (headers : List Str) (whereClause : Option SQLNode) (limit : Int)
    (idxs : List Nat) : List (List Str) → List (List Str) → Except QueryError (List (List Str))
  | [], result => .ok result
  | row :: rest, result =>
      let afterWhere : Except QueryError Bool :=
        match whereClause with
        | none => .ok true
        | some w => evaluateWhereClause w headers row
      match afterWhere with
      | .error e => .error e
      | .ok false => rowLoop headers whereClause limit idxs rest result
      | .ok true =>
          if limit ≠ -1 ∧ (result.length : Int) - 1 ≥ limit then .ok result
          else
            match selectCells row idxs with
            | none => .error .indexOutOfRange
            | some newRow => rowLoop headers whereClause limit idxs rest (result ++ [newRow])

/-- The part of `executeQuery` after the clause scan. -/
def runQuery (st : ScanState) : Except QueryError (List (List Str)) :=
  match st.table with
  | none => .error .noFromClause
  | some table =>
      match columnIndices table.Headers st.selectedColumns with
      | .error e => .error e
      | .ok idxs =>
          match selectCells table.Headers idxs with
          | none => .error .indexOutOfRange
          | some headerRow =>
              rowLoop table.Headers st.whereClause st.limit idxs table.Rows [headerRow]

/-- The executor. -/
def executeQuery (up : Char → Char) (readAll : Str → Option (List (List Str)))
    (ast : List SQLNode) : Except QueryError (List (List Str)) :=
  match scanClauses up readAll ScanState.init ast with
  | .error e => .error e
  | .ok st => runQuery st

/-! ## Tokenizer (`main.go`, lines 272-309) -/

/-- The single-quote character. -/
def quote : Char := Char.ofNat 39

/-- Appending the current token to the tokens when it is not empty: the
`if currentToken.Len() > 0` blocks of the tokenizer. -/
def flush (tokens : List Str) (currentToken : Str) : List Str :=
  if currentToken.length > 0 then tokens ++ [currentToken] else tokens

/-- The scan of `tokenize` over the remaining characters, from the state
`tokens`, `currentToken`, `inQuotes`; it ends with the final flush. -/
def tokenizeLoop : Str → List Str → Str → Bool → List Str
  | [], tokens, currentToken, _ => flush tokens currentToken
  | char :: rest, tokens, currentToken, inQuotes =>
      if char = quote then
        tokenizeLoop rest tokens (currentToken ++ [char]) (!inQuotes)
      else if char = ' ' ∧ inQuotes = false then
        tokenizeLoop rest (flush tokens currentToken) [] inQuotes
      else if char = ',' ∧ inQuotes = false then
        tokenizeLoop rest (flush tokens currentToken ++ [[',']]) [] inQuotes
      else if char = '=' ∧ inQuotes = false then
        tokenizeLoop rest (flush tokens currentToken ++ [['=']]) [] inQuotes
      else
        tokenizeLoop rest tokens (currentToken ++ [char]) inQuotes

/-- The tokenizer. -/
def tokenize (sql : Str) : List Str :=
  tokenizeLoop sql [] [] false

/-! ## Parser (`main.go`, lines 214-270 and 311-319) -/

/-- Go `strings.Join`. -/
def Join : List Str → Str → Str
  | [], _ => []
  | [a], _ => a
  | a :: b :: rest, sep => a ++ sep ++ Join (b :: rest) sep

/-- Go `strings.Trim s cutset`: the characters of `cutset` are removed from
both ends of `s`. -/
def Trim (s cutset : Str) : Str :=
  ((s.dropWhile (fun c => decide (c ∈ cutset))).reverse.dropWhile
    (fun c => decide (c ∈ cutset))).reverse

/-- The keyword test: a token that upper-cases to one of the four keywords. -/
def isKeyword (up : Char → Char) (token : Str) : Bool :=
  ["SELECT".toList, "FROM".toList, "WHERE".toList, "LIMIT".toList].any
    (fun keyword => decide (ToUpper up token = keyword))

/-- The inner loop of the SELECT case: the upper-cased tokens up to the next
token that upper-cases to `FROM`, commas dropped, and the tokens left. -/
def collectSelect (up : Char → Char) : List Str → List Str × List Str
  | [] => ([], [])
  | tok :: rest =>
      if ToUpper up tok ≠ "FROM".toList then
        ((if tok ≠ [','] then [ToUpper up tok] else []) ++ (collectSelect up rest).1,
          (collectSelect up rest).2)
      else ([], tok :: rest)

/-- The inner loop of the FROM case: the tokens up to the next keyword, and the
tokens left. -/
def collectFrom (up : Char → Char) : List Str → List Str × List Str
  | [] => ([], [])
  | tok :: rest =>
      if isKeyword up tok = false then
        (tok :: (collectFrom up rest).1, (collectFrom up rest).2)
      else ([], tok :: rest)

/-- The main loop of `parseSQL` on the tokens from the cursor on; `fuel` bounds
the number of iterations, each of which consumes at least one token. -/
def parseLoop (up : Char → Char) : Nat → List Str → List SQLNode →
    Except QueryError (List SQLNode)
  | _, [], ast => .ok ast
  | 0, _ :: _, _ => .error .outOfFuel
  | fuel + 1, tok :: rest, ast =>
      let token := ToUpper up tok
      if token = "SELECT".toList then
        parseLoop up fuel (collectSelect up rest).2
          (ast ++ [{ Type_ := token, Value := Join (collectSelect up rest).1 ", ".toList,
                     Left := [], Operator := [], Right := [] }])
      else if token = "FROM".toList then
        parseLoop up fuel (collectFrom up rest).2
          (ast ++ [{ Type_ := token, Value := Join (collectFrom up rest).1 " ".toList,
                     Left := [], Operator := [], Right := [] }])
      else if token = "WHERE".toList then
        match rest with
        | left :: op :: right :: rest3 =>
            parseLoop up fuel rest3
              (ast ++ [{ Type_ := token, Value := [], Left := ToUpper up left, Operator := op,
                         Right := Trim right [quote] }])
        | _ =>
            parseLoop up fuel rest
              (ast ++ [{ Type_ := token, Value := [], Left := [], Operator := [], Right := [] }])
      else if token = "LIMIT".toList then
        match rest with
        | value :: rest1 =>
            parseLoop up fuel rest1
              (ast ++ [{ Type_ := token, Value := value, Left := [], Operator := [],
                         Right := [] }])
        | [] => .error .limitRequiresValue
      else .error (.unexpectedToken token)

/-- The parser: the main loop runs over the tokens of the query, with one unit
of fuel per token. -/
def parseSQL (up : Char → Char) (sql : Str) : Except QueryError (List SQLNode) :=
  parseLoop up (tokenize sql).length (tokenize sql) []

/-! ## Reading a clause sequence: the effective clauses -/

/-- The last node of type `ty` in a clause sequence, if there is one. -/
def lastOfType (ty : Str) : List SQLNode → Option SQLNode
  | [] => none
  | node :: rest =>
      match lastOfType ty rest with
      | some n => some n
      | none => if node.Type_ = ty then some node else none

/-- The column list a SELECT node stands for: `none` (all columns) for `*`. -/
def selectList (node : SQLNode) : Option (List Str) :=
  if node.Value = "*".toList then none else some (Split node.Value ", ".toList)

/-- The effective SELECT list: that of the last SELECT node, all columns when
there is none. -/
def effectiveSelect (ast : List SQLNode) : Option (List Str) :=
  match lastOfType "SELECT".toList ast with
  | none => none
  | some node => selectList node

/-- The effective LIMIT: the value of the last LIMIT node, `none` when there is
no LIMIT node. -/
def effectiveLimit (ast : List SQLNode) : Option Nat :=
  match lastOfType "LIMIT".toList ast with
  | none => none
  | some node => some ((Atoi node.Value).getD 0).toNat

/-- Every FROM node names a table that loads and every LIMIT node carries a
non-negative integer. -/
def ClausesValid (up : Char → Char) (readAll : Str → Option (List (List Str)))
    (ast : List SQLNode) : Prop :=
  ∀ node ∈ ast,
    (node.Type_ = "FROM".toList →
      ∃ t, loadCSVTable up readAll (node.Value ++ ".csv".toList) = .ok t) ∧
    (node.Type_ = "LIMIT".toList → ∃ k : Int, Atoi node.Value = some k ∧ 0 ≤ k)

/-! ## The result a query is specified to have -/

/-- The position of the first header equal to `name` (the number of headers
when there is none). -/
def columnPosition (name : Str) (headers : List Str) : Nat :=
  headers.findIdx (fun h => decide (h = name))

/-- A row matches when there is no WHERE clause, or when its cell in the WHERE
column equals the right-hand literal. -/
def specMatches (headers : List Str) (w : Option SQLNode) (row : List Str) : Bool :=
  match w with
  | none => true
  | some node => decide (row[columnPosition node.Left headers]? = some node.Right)

/-- The selected positions: every position for "all columns", otherwise the
position of each named column, in the order of the list. -/
def specIndices (headers : List Str) (sel : Option (List Str)) : List Nat :=
  match sel with
  | none => List.range headers.length
  | some cols => cols.map (fun c => columnPosition c headers)

/-- Projection of a row onto positions. -/
def specProject (idxs : List Nat) (row : List Str) : List Str :=
  idxs.map (fun i => row.getD i [])

/-- The first `n` elements, or all of them when there is no bound. -/
def specLimit (lim : Option Nat) (rows : List (List Str)) : List (List Str) :=
  match lim with
  | none => rows
  | some n => rows.take n

/-- The specified result: the header row, then the projection of the first
`n` matching rows in source order. -/
def specResult (t : Table) (sel : Option (List Str)) (w : Option SQLNode)
    (lim : Option Nat) : List (List Str) :=
  specProject (specIndices t.Headers sel) t.Headers ::
    (specLimit lim (t.Rows.filter (specMatches t.Headers w))).map
      (specProject (specIndices t.Headers sel))

/-- How many more rows the row loop may still emit when `len` rows (header
included) have been built: no bound for the marker `-1`. -/
def remaining (limit : Int) (len : Nat) : Option Nat :=
  if limit = -1 then none else some (limit - ((len : Int) - 1)).toNat

/-- The header row of a result: the names of an explicit column list, all the
headers otherwise. -/
def specHeader (headers : List Str) (sel : Option (List Str)) : List Str :=
  match sel with
  | none => headers
  | some cols => cols

/-- The first name of an explicit column list that is not a header. -/
def firstUnknown (headers : List Str) (sel : Option (List Str)) : Option Str :=
  match sel with
  | none => none
  | some cols => cols.find? (fun c => decide (c ∉ headers))

/-- A decision procedure for `ClausesValid`. -/
def validClauses (up : Char → Char) (readAll : Str → Option (List (List Str)))
    (ast : List SQLNode) : Bool :=
  ast.all (fun node =>
    (decide (node.Type_ ≠ "FROM".toList) ||
      (loadCSVTable up readAll (node.Value ++ ".csv".toList)).toBool) &&
    (decide (node.Type_ ≠ "LIMIT".toList) ||
      (match Atoi node.Value with
       | none => false
       | some k => decide (0 ≤ k))))

/-! ## Quoted regions of a text -/

/-- The quote state after reading `s` from the state `q`: every single quote
toggles it. -/
def quoteState (q : Bool) : Str → Bool
  | [] => q
  | c :: cs => quoteState (if c = quote then !q else q) cs

/-- The characters of `s` that lie outside single-quoted regions, the quote
characters left out, when reading starts in the state `q`. -/
def unquoted : Bool → Str → Str
  | _, [] => []
  | q, c :: cs =>
      if c = quote then unquoted (!q) cs
      else if q then unquoted q cs
      else c :: unquoted q cs

/-- The characters of `s` that lie inside single-quoted regions, the quote
characters left out, when reading starts in the state `q`. -/
def quoted : Bool → Str → Str
  | _, [] => []
  | q, c :: cs =>
      if c = quote then quoted (!q) cs
      else if q then c :: quoted q cs
      else quoted q cs

/-- No comma, equals sign or space outside the quoted regions of `s`. -/
def Clean (s : Str) : Prop :=
  ∀ c ∈ unquoted false s, c ≠ ',' ∧ c ≠ '=' ∧ c ≠ ' '

/-- The shape of a token: non-empty, and either the standalone comma, the
standalone equals sign, or a text without comma, equals sign or space outside
its quoted regions. -/
def GoodToken (tok : Str) : Prop :=
  tok ≠ [] ∧ (tok = [','] ∨ tok = ['='] ∨ Clean tok)

/-- A word: non-empty, without space, quote, comma or equals sign. -/
def IsWord (w : Str) : Prop :=
  w ≠ [] ∧ ∀ c ∈ w, c ≠ ' ' ∧ c ≠ quote ∧ c ≠ ',' ∧ c ≠ '='

/-! ## Letter case of a word -/

/-- The lower-case form of a letter `A` to `Z`; other characters are kept. -/
def lowerRune (r : Char) : Char :=
  if 'A'.toNat ≤ r.toNat ∧ r.toNat ≤ 'Z'.toNat then Char.ofNat (r.toNat + 32) else r

/-- The upper-case form of a letter `a` to `z`; other characters are kept. -/
def upperRune (r : Char) : Char :=
  if 'a'.toNat ≤ r.toNat ∧ r.toNat ≤ 'z'.toNat then Char.ofNat (r.toNat - 32) else r

/-- A word with its letters `A` to `Z` put in lower case. -/
def lowerCased (s : Str) : Str := s.map lowerRune

/-- A word with its letters `a` to `z` put in upper case. -/
def upperCased (s : Str) : Str := s.map upperRune

/-- The characters a word may not contain: space, quote, comma, equals sign. -/
def isSep (r : Char) : Bool :=
  decide (r = ' ') || decide (r = quote) || decide (r = ',') || decide (r = '=')

/-- The node `parseSQL` builds for a SELECT or FROM clause. -/
def valueNode (ty value : Str) : SQLNode :=
  { Type_ := ty, Value := value, Left := [], Operator := [], Right := [] }

/-! ## The main loop of the parser, step by step -/

/-- One iteration of the main loop of `parseSQL`, at the token `tok` under the
cursor and the tokens `rest` after it: the tokens left and the clause sequence
after the iteration, or the error the iteration returns. -/
def parseStep (up : Char → Char) (tok : Str) (rest : List Str) (ast : List SQLNode) :
    Except QueryError (List Str × List SQLNode) :=
  let token := ToUpper up tok
  if token = "SELECT".toList then
    .ok ((collectSelect up rest).2,
      ast ++ [{ Type_ := token, Value := Join (collectSelect up rest).1 ", ".toList,
                Left := [], Operator := [], Right := [] }])
  else if token = "FROM".toList then
    .ok ((collectFrom up rest).2,
      ast ++ [{ Type_ := token, Value := Join (collectFrom up rest).1 " ".toList,
                Left := [], Operator := [], Right := [] }])
  else if token = "WHERE".toList then
    match rest with
    | left :: op :: right :: rest3 =>
        .ok (rest3,
          ast ++ [{ Type_ := token, Value := [], Left := ToUpper up left, Operator := op,
                    Right := Trim right [quote] }])
    | _ =>
        .ok (rest,
          ast ++ [{ Type_ := token, Value := [], Left := [], Operator := [], Right := [] }])
  else if token = "LIMIT".toList then
    match rest with
    | value :: rest1 =>
        .ok (rest1,
          ast ++ [{ Type_ := token, Value := value, Left := [], Operator := [], Right := [] }])
    | [] => .error .limitRequiresValue
  else .error (.unexpectedToken token)

/-- The main loop of `parseSQL` started at the tokens `tokens` with the clause
sequence `ast` built so far. -/
def parseTokens (up : Char → Char) (tokens : List Str) (ast : List SQLNode) :
    Except QueryError (List SQLNode) :=
  parseLoop up tokens.length tokens ast

/-- The states of the main loop of `parseSQL`: `Reaches up tokens ast tokens2 ast2`
when the loop started at `tokens`, `ast` comes, after some iterations, to the
top of the loop with the tokens `tokens2` left and the clause sequence `ast2`;
these are the clause-start positions. -/
inductive Reaches (up : Char → Char) (tokens : List Str) (ast : List SQLNode) :
    List Str → List SQLNode → Prop where
  | start : Reaches up tokens ast tokens ast
  | step {tok : Str} {rest rest2 : List Str} {ast1 ast2 : List SQLNode} :
      Reaches up tokens ast (tok :: rest) ast1 →
      parseStep up tok rest ast1 = .ok (rest2, ast2) →
      Reaches up tokens ast rest2 ast2

/-- The WHERE node with empty fields. -/
def emptyWhere : SQLNode :=
  { Type_ := "WHERE".toList, Value := [], Left := [], Operator := [], Right := [] }

/-- A token that does not upper-case to `FROM`: the tokens the SELECT case
collects. -/
def notFrom (up : Char → Char) (tok : Str) : Bool :=
  decide (ToUpper up tok ≠ "FROM".toList)

/-- The column tokens of a SELECT clause: the tokens before the next `FROM`,
the `,` tokens dropped. -/
def columnTokens (up : Char → Char) (rest : List Str) : List Str :=
  (rest.takeWhile (notFrom up)).filter (fun tok => decide (tok ≠ [',']))

/-- The value specified for a SELECT node: the column tokens upper-cased and
joined with a comma and a space. -/
def selectValue (up : Char → Char) (rest : List Str) : Str :=
  Join ((columnTokens up rest).map (ToUpper up)) ", ".toList

/-- The WHERE node built from the three tokens after the keyword. -/
def whereNode (up : Char → Char) (left op right : Str) : SQLNode :=
  { Type_ := "WHERE".toList, Value := [], Left := ToUpper up left, Operator := op,
    Right := Trim right [quote] }

/-! ## The text of the tokens -/

/-- The text `s` without its spaces outside single-quoted regions, when reading
starts in the quote state `q`. -/
def dropUnquotedSpaces : Bool → Str → Str
  | _, [] => []
  | q, c :: cs =>
      if c = quote then c :: dropUnquotedSpaces (!q) cs
      else if c = ' ' ∧ q = false then dropUnquotedSpaces q cs
      else c :: dropUnquotedSpaces q cs

/-- The tab character. -/
def tab : Char := Char.ofNat 9

/-- The newline character. -/
def newline : Char := Char.ofNat 10

/-! ## Duplicate clauses -/

/-- The four clause types the executor looks at. -/
def isClauseType (ty : Str) : Bool :=
  decide (ty = "SELECT".toList) || decide (ty = "FROM".toList) ||
    decide (ty = "WHERE".toList) || decide (ty = "LIMIT".toList)

/-- The clause sequence reduced to the last SELECT, the last FROM, the last
WHERE and the last LIMIT node, in their original order. -/
def keepLast : List SQLNode → List SQLNode
  | [] => []
  | node :: rest =>
      if isClauseType node.Type_ = true ∧ lastOfType node.Type_ rest = none then
        node :: keepLast rest
      else keepLast rest

/-! ## The SELECT list between parser and executor -/

/-- The text contains the two-character sequence comma, space. -/
def hasCommaSpace : Str → Bool
  | c1 :: c2 :: rest => (decide (c1 = ',') && decide (c2 = ' ')) || hasCommaSpace (c2 :: rest)
  | _ => false

/-- What is assumed of the Unicode case table: no rune beyond ASCII has a
comma, a space or an asterisk as its upper case. -/
def CaseTableOk (up : Char → Char) : Prop :=
  ∀ r : Char, ¬ r.toNat ≤ 127 → up r ≠ ',' ∧ up r ≠ ' ' ∧ up r ≠ '*'

/-! ## Sample data -/

/-- A clause node written with string literals. -/
def mkNode (ty value left op right : String) : SQLNode :=
  { Type_ := ty.toList, Value := value.toList, Left := left.toList,
    Operator := op.toList, Right := right.toList }

/-- A file system holding `users.csv` with the records of the specification's
examples, and `empty.csv` with a header record only. -/
def sampleFiles : Str → Option (List (List Str)) := fun name =>
  if name = "users.csv".toList then
    some [["name".toList, "age".toList], ["Alice".toList, "30".toList],
      ["Bob".toList, "25".toList]]
  else if name = "empty.csv".toList then
    some [["name".toList, "age".toList]]
  else none

/-- The table `users.csv` loads to. -/
def usersTable : Table :=
  { Name := "users".toList
    Headers := ["NAME".toList, "AGE".toList]
    Rows := [["Alice".toList, "30".toList], ["Bob".toList, "25".toList]] }

/-- The table `empty.csv` loads to. -/
def emptyTable : Table :=
  { Name := "empty".toList
    Headers := ["NAME".toList, "AGE".toList]
    Rows := [] }

/-- The tokens after the keyword in `select name, age, name from users`. -/
def sampleSelectTokens : List Str :=
  ["name".toList, ",".toList, "age".toList, ",".toList, "name".toList, "from".toList,
    "users".toList]

/-! ## Lemmas on the clause scan -/

theorem scanClauses_cons_ok {up : Char → Char} {readAll : Str → Option (List (List Str))}
    {st st2 : ScanState} {node : SQLNode} {rest : List SQLNode}
    (h : scanClauses up readAll st (node :: rest) = .ok st2) :
    ∃ st1, scanNode up readAll st node = .ok st1 ∧ scanClauses up readAll st1 rest = .ok st2 := by
  simp only [scanClauses] at h
  cases hn : scanNode up readAll st node with
  | error e => rw [hn] at h; cases h
  | ok st1 => rw [hn] at h; exact ⟨st1, rfl, h⟩

theorem scanClauses_append (up : Char → Char) (readAll : Str → Option (List (List Str)))
    (a b : List SQLNode) (st : ScanState) :
    scanClauses up readAll st (a ++ b) =
      match scanClauses up readAll st a with
      | .error e => .error e
      | .ok st1 => scanClauses up readAll st1 b := by
  induction a generalizing st with
  | nil => simp [scanClauses]
  | cons node rest ih =>
      simp only [List.cons_append, scanClauses]
      cases hn : scanNode up readAll st node with
      | error e => simp
      | ok st1 => simp [ih]

/-- What one successful scan step does to the four variables. -/
theorem scanNode_ok {up : Char → Char} {readAll : Str → Option (List (List Str))}
    {st st1 : ScanState} {node : SQLNode} (h : scanNode up readAll st node = .ok st1) :
    st1.whereClause = (if node.Type_ = "WHERE".toList then some node else st.whereClause) ∧
    st1.selectedColumns =
      (if node.Type_ = "SELECT".toList then selectList node else st.selectedColumns) ∧
    (if node.Type_ = "LIMIT".toList then
        ∃ k : Int, Atoi node.Value = some k ∧ 0 ≤ k ∧ st1.limit = k
      else st1.limit = st.limit) ∧
    (if node.Type_ = "FROM".toList then
        ∃ t, loadCSVTable up readAll (node.Value ++ ".csv".toList) = .ok t ∧ st1.table = some t
      else st1.table = st.table) := by
  unfold scanNode at h
  by_cases hS : node.Type_ = "SELECT".toList
  · have h1 : ¬ node.Type_ = "WHERE".toList := by rw [hS]; decide
    have h2 : ¬ node.Type_ = "LIMIT".toList := by rw [hS]; decide
    have h3 : ¬ node.Type_ = "FROM".toList := by rw [hS]; decide
    rw [if_pos hS] at h
    simp only [if_neg h1, if_neg h2, if_neg h3, if_pos hS, selectList]
    by_cases hv : node.Value = "*".toList
    · rw [if_pos hv] at h; cases h; exact ⟨rfl, by rw [if_pos hv], rfl, rfl⟩
    · rw [if_neg hv] at h; cases h; exact ⟨rfl, by rw [if_neg hv], rfl, rfl⟩
  · rw [if_neg hS] at h
    by_cases hF : node.Type_ = "FROM".toList
    · have h1 : ¬ node.Type_ = "WHERE".toList := by rw [hF]; decide
      have h2 : ¬ node.Type_ = "LIMIT".toList := by rw [hF]; decide
      rw [if_pos hF] at h
      simp only [if_neg h1, if_neg h2, if_neg hS, if_pos hF]
      cases hl : loadCSVTable up readAll (node.Value ++ ".csv".toList) with
      | error e => simp only [hl] at h; cases h
      | ok t => simp only [hl] at h; cases h; exact ⟨rfl, rfl, rfl, t, rfl, rfl⟩
    · rw [if_neg hF] at h
      by_cases hW : node.Type_ = "WHERE".toList
      · have h2 : ¬ node.Type_ = "LIMIT".toList := by rw [hW]; decide
        rw [if_pos hW] at h
        simp only [if_neg h2, if_neg hS, if_neg hF, if_pos hW]
        cases h; exact ⟨rfl, rfl, rfl, rfl⟩
      · rw [if_neg hW] at h
        by_cases hL : node.Type_ = "LIMIT".toList
        · rw [if_pos hL] at h
          simp only [if_neg hS, if_neg hF, if_neg hW, if_pos hL]
          cases ha : Atoi node.Value with
          | none => simp only [ha] at h; cases h
          | some n =>
              simp only [ha] at h
              by_cases hn : n < 0
              · rw [if_pos hn] at h; cases h
              · rw [if_neg hn] at h; cases h
                exact ⟨rfl, rfl, ⟨n, rfl, not_lt.mp hn, rfl⟩, rfl⟩
        · rw [if_neg hL] at h
          cases h
          simp only [if_neg hS, if_neg hF, if_neg hW, if_neg hL]
          simp

theorem scanClauses_where {up : Char → Char} {readAll : Str → Option (List (List Str))}
    {ast : List SQLNode} {st st2 : ScanState} (h : scanClauses up readAll st ast = .ok st2) :
    st2.whereClause =
      (match lastOfType "WHERE".toList ast with
       | some n => some n
       | none => st.whereClause) := by
  induction ast generalizing st with
  | nil => simp only [scanClauses] at h; cases h; rfl
  | cons node rest ih =>
      obtain ⟨st1, h1, h2⟩ := scanClauses_cons_ok h
      have hstep := (scanNode_ok h1).1
      have hrec := ih h2
      simp only [lastOfType]
      cases hl : lastOfType "WHERE".toList rest with
      | some n => rw [hl] at hrec; exact hrec
      | none =>
          rw [hl] at hrec
          rw [hrec, hstep]
          by_cases hW : node.Type_ = "WHERE".toList
          · simp only [if_pos hW]
          · simp only [if_neg hW]

theorem scanClauses_select {up : Char → Char} {readAll : Str → Option (List (List Str))}
    {ast : List SQLNode} {st st2 : ScanState} (h : scanClauses up readAll st ast = .ok st2) :
    st2.selectedColumns =
      (match lastOfType "SELECT".toList ast with
       | some n => selectList n
       | none => st.selectedColumns) := by
  induction ast generalizing st with
  | nil => simp only [scanClauses] at h; cases h; rfl
  | cons node rest ih =>
      obtain ⟨st1, h1, h2⟩ := scanClauses_cons_ok h
      have hstep := (scanNode_ok h1).2.1
      have hrec := ih h2
      simp only [lastOfType]
      cases hl : lastOfType "SELECT".toList rest with
      | some n => rw [hl] at hrec; exact hrec
      | none =>
          rw [hl] at hrec
          rw [hrec, hstep]
          by_cases hW : node.Type_ = "SELECT".toList
          · simp only [if_pos hW]
          · simp only [if_neg hW]

theorem scanClauses_limit {up : Char → Char} {readAll : Str → Option (List (List Str))}
    {ast : List SQLNode} {st st2 : ScanState} (h : scanClauses up readAll st ast = .ok st2) :
    (match lastOfType "LIMIT".toList ast with
     | some n => ∃ k : Int, Atoi n.Value = some k ∧ 0 ≤ k ∧ st2.limit = k
     | none => st2.limit = st.limit) := by
  induction ast generalizing st with
  | nil => simp only [scanClauses] at h; cases h; rfl
  | cons node rest ih =>
      obtain ⟨st1, h1, h2⟩ := scanClauses_cons_ok h
      have hstep := (scanNode_ok h1).2.2.1
      have hrec := ih h2
      simp only [lastOfType]
      cases hl : lastOfType "LIMIT".toList rest with
      | some n => rw [hl] at hrec; exact hrec
      | none =>
          rw [hl] at hrec
          by_cases hW : node.Type_ = "LIMIT".toList
          · simp only [if_pos hW] at hstep ⊢
            obtain ⟨k, hk1, hk2, hk3⟩ := hstep
            exact ⟨k, hk1, hk2, by simp only at hrec; rw [hrec, hk3]⟩
          · simp only [if_neg hW] at hstep ⊢
            simp only at hrec
            rw [hrec, hstep]

theorem scanClauses_table {up : Char → Char} {readAll : Str → Option (List (List Str))}
    {ast : List SQLNode} {st st2 : ScanState} (h : scanClauses up readAll st ast = .ok st2) :
    (match lastOfType "FROM".toList ast with
     | some n => ∃ t, loadCSVTable up readAll (n.Value ++ ".csv".toList) = .ok t ∧
          st2.table = some t
     | none => st2.table = st.table) := by
  induction ast generalizing st with
  | nil => simp only [scanClauses] at h; cases h; rfl
  | cons node rest ih =>
      obtain ⟨st1, h1, h2⟩ := scanClauses_cons_ok h
      have hstep := (scanNode_ok h1).2.2.2
      have hrec := ih h2
      simp only [lastOfType]
      cases hl : lastOfType "FROM".toList rest with
      | some n => rw [hl] at hrec; exact hrec
      | none =>
          rw [hl] at hrec
          by_cases hW : node.Type_ = "FROM".toList
          · simp only [if_pos hW] at hstep ⊢
            obtain ⟨t, ht1, ht2⟩ := hstep
            exact ⟨t, ht1, by simp only at hrec; rw [hrec, ht2]⟩
          · simp only [if_neg hW] at hstep ⊢
            simp only at hrec
            rw [hrec, hstep]

/-- A successful scan has met only loadable FROM nodes and valid LIMIT nodes. -/
theorem scanClauses_valid {up : Char → Char} {readAll : Str → Option (List (List Str))}
    {ast : List SQLNode} {st st2 : ScanState} (h : scanClauses up readAll st ast = .ok st2) :
    ClausesValid up readAll ast := by
  induction ast generalizing st with
  | nil => intro node hn; cases hn
  | cons node rest ih =>
      obtain ⟨st1, h1, h2⟩ := scanClauses_cons_ok h
      have hstep := scanNode_ok h1
      intro n hn
      rcases List.mem_cons.mp hn with rfl | hmem
      · constructor
        · intro hF
          have := hstep.2.2.2
          rw [if_pos hF] at this
          obtain ⟨t, ht, _⟩ := this
          exact ⟨t, ht⟩
        · intro hL
          have := hstep.2.2.1
          rw [if_pos hL] at this
          obtain ⟨k, hk, hk0, _⟩ := this
          exact ⟨k, hk, hk0⟩
      · exact ih h2 n hmem

/-- One scan step succeeds on a loadable FROM node, a valid LIMIT node and on
every node of another type. -/
theorem scanNode_ok_of_valid {up : Char → Char} {readAll : Str → Option (List (List Str))}
    (st : ScanState) {node : SQLNode}
    (hF : node.Type_ = "FROM".toList →
      ∃ t, loadCSVTable up readAll (node.Value ++ ".csv".toList) = .ok t)
    (hL : node.Type_ = "LIMIT".toList → ∃ k : Int, Atoi node.Value = some k ∧ 0 ≤ k) :
    ∃ st1, scanNode up readAll st node = .ok st1 := by
  unfold scanNode
  by_cases hS : node.Type_ = "SELECT".toList
  · rw [if_pos hS]
    by_cases hv : node.Value = "*".toList
    · rw [if_pos hv]; exact ⟨_, rfl⟩
    · rw [if_neg hv]; exact ⟨_, rfl⟩
  · rw [if_neg hS]
    by_cases hF2 : node.Type_ = "FROM".toList
    · rw [if_pos hF2]
      obtain ⟨t, ht⟩ := hF hF2
      simp only [ht]
      exact ⟨_, rfl⟩
    · rw [if_neg hF2]
      by_cases hW : node.Type_ = "WHERE".toList
      · rw [if_pos hW]; exact ⟨_, rfl⟩
      · rw [if_neg hW]
        by_cases hL2 : node.Type_ = "LIMIT".toList
        · rw [if_pos hL2]
          obtain ⟨k, hk, hk0⟩ := hL hL2
          simp only [hk]
          rw [if_neg (not_lt.mpr hk0)]
          exact ⟨_, rfl⟩
        · rw [if_neg hL2]; exact ⟨_, rfl⟩

/-- The scan succeeds exactly on the valid clause sequences. -/
theorem scanClauses_ok_of_valid {up : Char → Char} {readAll : Str → Option (List (List Str))}
    {ast : List SQLNode} (st : ScanState) (h : ClausesValid up readAll ast) :
    ∃ st2, scanClauses up readAll st ast = .ok st2 := by
  induction ast generalizing st with
  | nil => exact ⟨st, rfl⟩
  | cons node rest ih =>
      have hnode := h node (List.mem_cons_self _ _)
      obtain ⟨st1, h1⟩ := scanNode_ok_of_valid st hnode.1 hnode.2
      obtain ⟨st2, h2⟩ := ih st1 (fun n hn => h n (List.mem_cons_of_mem _ hn))
      refine ⟨st2, ?_⟩
      simp only [scanClauses, h1, h2]

/-! ## Lemmas on column resolution and projection -/

theorem headerIndex_some {col : Str} {headers : List Str} {i : Nat}
    (h : headerIndex col headers = some i) :
    i = columnPosition col headers ∧ headers[i]? = some col := by
  induction headers generalizing i with
  | nil => simp [headerIndex] at h
  | cons hd tl ih =>
      unfold headerIndex at h
      by_cases hc : col = hd
      · rw [if_pos hc] at h
        cases h
        subst hc
        simp [columnPosition, List.findIdx_cons]
      · rw [if_neg hc] at h
        cases hr : headerIndex col tl with
        | none => rw [hr] at h; simp at h
        | some j =>
            rw [hr] at h
            simp only [Option.map_some', Option.some.injEq] at h
            subst h
            obtain ⟨h1, h2⟩ := ih hr
            have hne : ¬ hd = col := fun e => hc e.symm
            constructor
            · simp only [columnPosition, List.findIdx_cons, hne, decide_False, cond_false]
              simp only [columnPosition] at h1
              omega
            · simpa using h2

theorem headerIndex_none {col : Str} {headers : List Str} :
    headerIndex col headers = none ↔ col ∉ headers := by
  induction headers with
  | nil => simp [headerIndex]
  | cons hd tl ih =>
      unfold headerIndex
      by_cases hc : col = hd
      · simp [hc]
      · rw [if_neg hc]
        simp only [Option.map_eq_none', ih, List.mem_cons, not_or]
        exact ⟨fun h => ⟨hc, h⟩, fun h => h.2⟩

theorem selectCells_some {row : List Str} {idxs : List Nat} {cells : List Str}
    (h : selectCells row idxs = some cells) : cells = specProject idxs row := by
  induction idxs generalizing cells with
  | nil => simp [selectCells] at h; simp [specProject, h]
  | cons i rest ih =>
      unfold selectCells at h
      cases hi : row[i]? with
      | none => simp [hi] at h
      | some v =>
          cases hr : selectCells row rest with
          | none => simp [hi, hr] at h
          | some vs =>
              simp only [hi, hr, Option.some.injEq] at h
              subst h
              have := ih hr
              simp only [specProject, List.map_cons, List.cons.injEq]
              refine ⟨?_, by simpa [specProject] using this⟩
              rw [List.getD_eq_getElem?_getD, hi]
              rfl

theorem selectCells_lt {row : List Str} {idxs : List Nat} {cells : List Str}
    (h : selectCells row idxs = some cells) : ∀ i ∈ idxs, i < row.length := by
  induction idxs generalizing cells with
  | nil => intro i hi; cases hi
  | cons j rest ih =>
      unfold selectCells at h
      cases hj : row[j]? with
      | none => simp [hj] at h
      | some v =>
          cases hr : selectCells row rest with
          | none => simp [hj, hr] at h
          | some vs =>
              intro i hi
              rcases List.mem_cons.mp hi with rfl | hmem
              · by_contra hn
                rw [List.getElem?_eq_none (not_lt.mp hn)] at hj
                cases hj
              · exact ih hr i hmem

theorem selectCells_of_lt {row : List Str} {idxs : List Nat}
    (h : ∀ i ∈ idxs, i < row.length) : ∃ cells, selectCells row idxs = some cells := by
  induction idxs with
  | nil => exact ⟨[], rfl⟩
  | cons i rest ih =>
      obtain ⟨vs, hvs⟩ := ih (fun j hj => h j (List.mem_cons_of_mem _ hj))
      have hi : i < row.length := h i (List.mem_cons_self _ _)
      refine ⟨row[i] :: vs, ?_⟩
      unfold selectCells
      simp [List.getElem?_eq_getElem hi, hvs]

/-- A successful resolution yields the position of each name, and the headers
at these positions are the names themselves. -/
theorem resolveColumns_ok {headers cols : List Str} {idxs : List Nat}
    (h : resolveColumns headers cols = .ok idxs) :
    idxs = cols.map (fun c => columnPosition c headers) ∧
      selectCells headers idxs = some cols := by
  induction cols generalizing idxs with
  | nil => simp only [resolveColumns] at h; cases h; exact ⟨rfl, rfl⟩
  | cons c rest ih =>
      unfold resolveColumns at h
      cases hc : headerIndex c headers with
      | none => simp only [hc] at h; cases h
      | some i =>
          simp only [hc] at h
          cases hr : resolveColumns headers rest with
          | error e => simp only [hr] at h; cases h
          | ok is =>
              simp only [hr] at h
              cases h
              obtain ⟨h1, h2⟩ := ih hr
              obtain ⟨p1, p2⟩ := headerIndex_some hc
              constructor
              · simp only [List.map_cons, List.cons.injEq]
                exact ⟨p1, h1⟩
              · unfold selectCells
                simp only [p2, h2]

/-- The resolution fails exactly when a name is unknown, and the error names
the first unknown name. -/
theorem resolveColumns_error {headers cols : List Str} {c : Str}
    (h : cols.find? (fun c => decide (c ∉ headers)) = some c) :
    resolveColumns headers cols = .error (.columnNotFound c) := by
  induction cols with
  | nil => simp at h
  | cons d rest ih =>
      unfold resolveColumns
      by_cases hd : d ∈ headers
      · have hfind : rest.find? (fun c => decide (c ∉ headers)) = some c := by
          simpa [List.find?_cons, hd] using h
        cases hi : headerIndex d headers with
        | none => exact absurd hd (headerIndex_none.mp hi)
        | some i => simp only [ih hfind]
      · have hcd : d = c := by simpa [List.find?_cons, hd] using h
        subst hcd
        simp only [headerIndex_none.mpr hd]

theorem resolveColumns_ok_of_mem {headers cols : List Str} (h : ∀ c ∈ cols, c ∈ headers) :
    ∃ idxs, resolveColumns headers cols = .ok idxs := by
  induction cols with
  | nil => exact ⟨[], rfl⟩
  | cons d rest ih =>
      obtain ⟨is, his⟩ := ih (fun c hc => h c (List.mem_cons_of_mem _ hc))
      have hd : d ∈ headers := h d (List.mem_cons_self _ _)
      cases hi : headerIndex d headers with
      | none => exact absurd hd (headerIndex_none.mp hi)
      | some i =>
          refine ⟨i :: is, ?_⟩
          unfold resolveColumns
          simp only [hi, his]

theorem selectCells_range (row : List Str) :
    selectCells row (List.range row.length) = some row := by
  obtain ⟨cells, hc⟩ := @selectCells_of_lt row (List.range row.length)
    (fun i hi => List.mem_range.mp hi)
  rw [hc, selectCells_some hc]
  congr 1
  apply List.ext_getElem
  · simp [specProject]
  · intro n h1 h2
    simp only [specProject, List.getElem_map, List.getElem_range]
    rw [List.getD_eq_getElem?_getD, List.getElem?_eq_getElem h2]
    rfl

/-! ## Lemmas on the WHERE test and the row loop -/

theorem evaluateWhereClause_ok {w : SQLNode} {headers row : List Str} {b : Bool}
    (h : evaluateWhereClause w headers row = .ok b) :
    w.Operator = "=".toList ∧ w.Left ∈ headers ∧ b = specMatches headers (some w) row := by
  unfold evaluateWhereClause at h
  by_cases hop : w.Operator = "=".toList
  · rw [if_neg (not_not.mpr hop)] at h
    cases hi : headerIndex w.Left headers with
    | none => simp only [hi] at h; cases h
    | some i =>
        simp only [hi] at h
        obtain ⟨p1, _⟩ := headerIndex_some hi
        have hmem : w.Left ∈ headers := by
          by_contra hn
          rw [headerIndex_none.mpr hn] at hi
          cases hi
        cases hc : row[i]? with
        | none => simp only [hc] at h; cases h
        | some v =>
            simp only [hc] at h
            cases h
            refine ⟨hop, hmem, ?_⟩
            simp only [specMatches, ← p1, hc, Option.some.injEq]
  · rw [if_pos hop] at h; cases h

/-- The three ways one iteration of the row loop can go when the loop as a
whole succeeds: the row is skipped, the loop stops at the limit, or the row is
projected and appended. -/
theorem rowLoop_cons_ok {headers : List Str} {w : Option SQLNode} {limit : Int}
    {idxs : List Nat} {row : List Str} {rest acc result : List (List Str)}
    (h : rowLoop headers w limit idxs (row :: rest) acc = .ok result) :
    (specMatches headers w row = false ∧ rowLoop headers w limit idxs rest acc = .ok result) ∨
    (specMatches headers w row = true ∧ (limit ≠ -1 ∧ (acc.length : Int) - 1 ≥ limit) ∧
      result = acc) ∨
    (specMatches headers w row = true ∧ ¬ (limit ≠ -1 ∧ (acc.length : Int) - 1 ≥ limit) ∧
      rowLoop headers w limit idxs rest (acc ++ [specProject idxs row]) = .ok result) := by
  unfold rowLoop at h
  have key : ∀ b : Bool, b = specMatches headers w row →
      ((match (Except.ok b : Except QueryError Bool) with
        | .error e => .error e
        | .ok false => rowLoop headers w limit idxs rest acc
        | .ok true =>
            if limit ≠ -1 ∧ (acc.length : Int) - 1 ≥ limit then .ok acc
            else
              match selectCells row idxs with
              | none => .error .indexOutOfRange
              | some newRow => rowLoop headers w limit idxs rest (acc ++ [newRow])) :
          Except QueryError (List (List Str))) = .ok result →
      (specMatches headers w row = false ∧ rowLoop headers w limit idxs rest acc = .ok result) ∨
      (specMatches headers w row = true ∧ (limit ≠ -1 ∧ (acc.length : Int) - 1 ≥ limit) ∧
        result = acc) ∨
      (specMatches headers w row = true ∧ ¬ (limit ≠ -1 ∧ (acc.length : Int) - 1 ≥ limit) ∧
        rowLoop headers w limit idxs rest (acc ++ [specProject idxs row]) = .ok result) := by
    intro b hb hm
    cases b with
    | false => exact Or.inl ⟨hb.symm, hm⟩
    | true =>
        simp only at hm
        by_cases hl : limit ≠ -1 ∧ (acc.length : Int) - 1 ≥ limit
        · rw [if_pos hl] at hm
          cases hm
          exact Or.inr (Or.inl ⟨hb.symm, hl, rfl⟩)
        · rw [if_neg hl] at hm
          cases hs : selectCells row idxs with
          | none => simp only [hs] at hm; cases hm
          | some newRow =>
              simp only [hs] at hm
              rw [selectCells_some hs] at hm
              exact Or.inr (Or.inr ⟨hb.symm, hl, hm⟩)
  cases w with
  | none => exact key true rfl h
  | some node =>
      simp only at h
      cases he : evaluateWhereClause node headers row with
      | error e => simp only [he] at h; cases h
      | ok b =>
          rw [he] at h
          exact key b (evaluateWhereClause_ok he).2.2 h

theorem specLimit_nil (lim : Option Nat) : specLimit lim [] = [] := by
  cases lim <;> simp [specLimit]

/-- A successful row loop appends to what it started from the projections of
the first matching rows, as many as the limit still allows. -/
theorem rowLoop_ok {headers : List Str} {w : Option SQLNode} {limit : Int} {idxs : List Nat}
    {rows acc result : List (List Str)}
    (h : rowLoop headers w limit idxs rows acc = .ok result) :
    result = acc ++ (specLimit (remaining limit acc.length)
      (rows.filter (specMatches headers w))).map (specProject idxs) := by
  induction rows generalizing acc with
  | nil =>
      simp only [rowLoop] at h
      cases h
      simp [specLimit_nil]
  | cons row rest ih =>
      rcases rowLoop_cons_ok h with ⟨hm, hr⟩ | ⟨hm, hl, hr⟩ | ⟨hm, hl, hr⟩
      · rw [List.filter_cons_of_neg (by simp [hm])]
        exact ih hr
      · rw [List.filter_cons_of_pos hm]
        have hrem : remaining limit acc.length = some 0 := by
          unfold remaining
          rw [if_neg hl.1]
          congr 1
          omega
        rw [hrem, hr]
        simp [specLimit]
      · rw [List.filter_cons_of_pos hm]
        have h2 := ih hr
        rw [h2]
        by_cases hm1 : limit = -1
        · simp [remaining, hm1, specLimit]
        · have hlt : (acc.length : Int) - 1 < limit := by
            by_contra hn
            exact hl ⟨hm1, by omega⟩
          have e1 : remaining limit acc.length =
              some ((limit - ((acc.length : Int) - 1)).toNat - 1 + 1) := by
            unfold remaining
            rw [if_neg hm1]
            congr 1
            omega
          have e2 : remaining limit (acc ++ [specProject idxs row]).length =
              some ((limit - ((acc.length : Int) - 1)).toNat - 1) := by
            unfold remaining
            rw [if_neg hm1]
            congr 1
            simp only [List.length_append, List.length_singleton]
            push_cast
            omega
          rw [e1, e2]
          simp [specLimit, List.take_succ_cons]

/-! ## Lemmas on the executor as a whole -/

theorem columnIndices_ok {headers : List Str} {sel : Option (List Str)} {idxs : List Nat}
    (h : columnIndices headers sel = .ok idxs) : idxs = specIndices headers sel := by
  cases sel with
  | none => simp only [columnIndices] at h; cases h; rfl
  | some cols => exact (resolveColumns_ok h).1

/-- The header row of a successful resolution: the names of the explicit list,
or all headers. -/
theorem columnIndices_header {headers : List Str} {sel : Option (List Str)} {idxs : List Nat}
    (h : columnIndices headers sel = .ok idxs) :
    selectCells headers idxs = some (specHeader headers sel) := by
  cases sel with
  | none => simp only [columnIndices] at h; cases h; exact selectCells_range headers
  | some cols => exact (resolveColumns_ok h).2

/-- A successful run after the scan returns the specified result for the
scanned variables. -/
theorem runQuery_ok {st : ScanState} {result : List (List Str)}
    (h : runQuery st = .ok result) :
    ∃ t idxs, st.table = some t ∧ columnIndices t.Headers st.selectedColumns = .ok idxs ∧
      result = specResult t st.selectedColumns st.whereClause (remaining st.limit 1) := by
  unfold runQuery at h
  cases ht : st.table with
  | none => simp only [ht] at h; cases h
  | some t =>
      simp only [ht] at h
      cases hc : columnIndices t.Headers st.selectedColumns with
      | error e => simp only [hc] at h; cases h
      | ok idxs =>
          refine ⟨t, idxs, rfl, hc, ?_⟩
          simp only [hc] at h
          cases hh : selectCells t.Headers idxs with
          | none => simp only [hh] at h; cases h
          | some headerRow =>
              simp only [hh] at h
              have := rowLoop_ok h
              rw [this, selectCells_some hh, columnIndices_ok hc]
              simp [specResult]

/-- After a successful scan from the initial values the four variables hold the
effective clauses of the sequence. -/
theorem scanClauses_init {up : Char → Char} {readAll : Str → Option (List (List Str))}
    {ast : List SQLNode} {st : ScanState}
    (h : scanClauses up readAll ScanState.init ast = .ok st) :
    st.whereClause = lastOfType "WHERE".toList ast ∧
    st.selectedColumns = effectiveSelect ast ∧
    remaining st.limit 1 = effectiveLimit ast ∧
    (lastOfType "LIMIT".toList ast = none → st.limit = -1) ∧
    (∀ n, lastOfType "LIMIT".toList ast = some n →
      ∃ k : Int, Atoi n.Value = some k ∧ 0 ≤ k ∧ st.limit = k) ∧
    (lastOfType "FROM".toList ast = none → st.table = none) ∧
    (∀ n, lastOfType "FROM".toList ast = some n →
      ∃ t, loadCSVTable up readAll (n.Value ++ ".csv".toList) = .ok t ∧ st.table = some t) := by
  have hw := scanClauses_where h
  have hs := scanClauses_select h
  have hl := scanClauses_limit h
  have ht := scanClauses_table h
  refine ⟨?_, ?_, ?_, ?_, ?_, ?_, ?_⟩
  · rw [hw]
    cases lastOfType "WHERE".toList ast <;> rfl
  · rw [hs]
    unfold effectiveSelect
    cases lastOfType "SELECT".toList ast <;> rfl
  · unfold effectiveLimit
    cases hL : lastOfType "LIMIT".toList ast with
    | none =>
        rw [hL] at hl
        simp only at hl
        rw [hl]
        rfl
    | some n =>
        rw [hL] at hl
        obtain ⟨k, hk, hk0, hk1⟩ := hl
        simp only [remaining, hk1, hk]
        rw [if_neg (by omega)]
        simp
  · intro hL
    rw [hL] at hl
    exact hl
  · intro n hL
    rw [hL] at hl
    exact hl
  · intro hF
    rw [hF] at ht
    exact ht
  · intro n hF
    rw [hF] at ht
    exact ht

/-- The executor, when it succeeds, returns the specified result for the table
of the last FROM clause and the effective SELECT, WHERE and LIMIT clauses. -/
theorem executeQuery_ok_spec {up : Char → Char} {readAll : Str → Option (List (List Str))}
    {ast : List SQLNode} {result : List (List Str)}
    (h : executeQuery up readAll ast = .ok result) :
    ∃ f t idxs, lastOfType "FROM".toList ast = some f ∧
      loadCSVTable up readAll (f.Value ++ ".csv".toList) = .ok t ∧
      columnIndices t.Headers (effectiveSelect ast) = .ok idxs ∧
      result = specResult t (effectiveSelect ast) (lastOfType "WHERE".toList ast)
        (effectiveLimit ast) := by
  unfold executeQuery at h
  cases hs : scanClauses up readAll ScanState.init ast with
  | error e => simp only [hs] at h; cases h
  | ok st =>
      simp only [hs] at h
      obtain ⟨t, idxs, ht, hidx, hres⟩ := runQuery_ok h
      obtain ⟨e1, e2, e3, _, _, e6, e7⟩ := scanClauses_init hs
      cases hF : lastOfType "FROM".toList ast with
      | none => rw [e6 hF] at ht; cases ht
      | some f =>
          obtain ⟨t2, hl, ht2⟩ := e7 f hF
          rw [ht] at ht2
          cases ht2
          exact ⟨f, t, idxs, rfl, hl, by rw [← e2]; exact hidx, by rw [hres, e1, e2, e3]⟩

theorem lastOfType_eq_none {ty : Str} {ast : List SQLNode} :
    lastOfType ty ast = none ↔ ∀ n ∈ ast, n.Type_ ≠ ty := by
  induction ast with
  | nil => simp [lastOfType]
  | cons node rest ih =>
      simp only [lastOfType, List.mem_cons, forall_eq_or_imp]
      cases hl : lastOfType ty rest with
      | some n =>
          constructor
          · intro h; cases h
          · intro h
            rw [ih.mpr h.2] at hl
            cases hl
      | none =>
          by_cases hn : node.Type_ = ty
          · simp [hn]
          · simp only [if_neg hn, true_iff]
            exact ⟨hn, ih.mp hl⟩

theorem lastOfType_some {ty : Str} {ast : List SQLNode} {n : SQLNode}
    (h : lastOfType ty ast = some n) : n ∈ ast ∧ n.Type_ = ty := by
  induction ast with
  | nil => simp [lastOfType] at h
  | cons node rest ih =>
      simp only [lastOfType] at h
      cases hl : lastOfType ty rest with
      | some m =>
          rw [hl] at h
          cases h
          exact ⟨List.mem_cons_of_mem _ (ih hl).1, (ih hl).2⟩
      | none =>
          rw [hl] at h
          by_cases hn : node.Type_ = ty
          · simp only [if_pos hn, Option.some.injEq] at h
            subst h
            exact ⟨List.mem_cons_self _ _, hn⟩
          · simp [hn] at h

theorem executeQuery_of_scan {up : Char → Char} {readAll : Str → Option (List (List Str))}
    {ast : List SQLNode} {st : ScanState}
    (h : scanClauses up readAll ScanState.init ast = .ok st) :
    executeQuery up readAll ast = runQuery st := by
  simp only [executeQuery, h]

theorem executeQuery_scan_error {up : Char → Char} {readAll : Str → Option (List (List Str))}
    {ast : List SQLNode} {e : QueryError}
    (h : scanClauses up readAll ScanState.init ast = .error e) :
    executeQuery up readAll ast = .error e := by
  simp only [executeQuery, h]

/-- A valid clause sequence scans to the effective clauses. -/
theorem scan_of_valid {up : Char → Char} {readAll : Str → Option (List (List Str))}
    {ast : List SQLNode} {f : SQLNode} {t : Table}
    (hvalid : ClausesValid up readAll ast)
    (hF : lastOfType "FROM".toList ast = some f)
    (hload : loadCSVTable up readAll (f.Value ++ ".csv".toList) = .ok t) :
    ∃ st, scanClauses up readAll ScanState.init ast = .ok st ∧ st.table = some t ∧
      st.whereClause = lastOfType "WHERE".toList ast ∧
      st.selectedColumns = effectiveSelect ast := by
  obtain ⟨st, hs⟩ := scanClauses_ok_of_valid ScanState.init hvalid
  obtain ⟨e1, e2, _, _, _, _, e7⟩ := scanClauses_init hs
  obtain ⟨t2, hl, ht2⟩ := e7 f hF
  rw [hload] at hl
  cases hl
  exact ⟨st, hs, ht2, e1, e2⟩

theorem columnIndices_unknown {headers : List Str} {sel : Option (List Str)} {c : Str}
    (h : firstUnknown headers sel = some c) :
    columnIndices headers sel = .error (.columnNotFound c) := by
  cases sel with
  | none => simp [firstUnknown] at h
  | some cols => exact resolveColumns_error h

theorem columnIndices_known {headers : List Str} {sel : Option (List Str)}
    (h : firstUnknown headers sel = none) :
    ∃ idxs, columnIndices headers sel = .ok idxs := by
  cases sel with
  | none => exact ⟨_, rfl⟩
  | some cols =>
      apply resolveColumns_ok_of_mem
      intro c hc
      simp only [firstUnknown, List.find?_eq_none, decide_eq_true_eq, not_not] at h
      exact h c hc

/-- With an unknown SELECT column the run fails before any row is looked at. -/
theorem runQuery_unknown {st : ScanState} {t : Table} {c : Str}
    (ht : st.table = some t) (h : firstUnknown t.Headers st.selectedColumns = some c) :
    runQuery st = .error (.columnNotFound c) := by
  simp only [runQuery, ht, columnIndices_unknown h]

/-- With known SELECT columns and a first data row on which the WHERE test
fails with an error, the run fails with that error. -/
theorem runQuery_where_error {st : ScanState} {t : Table} {w : SQLNode} {e : QueryError}
    (ht : st.table = some t) (hsel : firstUnknown t.Headers st.selectedColumns = none)
    (hw : st.whereClause = some w) (hrows : t.Rows ≠ [])
    (he : ∀ row, evaluateWhereClause w t.Headers row = .error e) :
    runQuery st = .error e := by
  obtain ⟨idxs, hidx⟩ := columnIndices_known hsel
  cases hr : t.Rows with
  | nil => exact absurd hr hrows
  | cons row rest =>
      simp only [runQuery, ht, hidx, columnIndices_header hidx, hr, hw, rowLoop, he row]

/-- With known SELECT columns and no data row the run returns the header row. -/
theorem runQuery_no_rows {st : ScanState} {t : Table}
    (ht : st.table = some t) (hsel : firstUnknown t.Headers st.selectedColumns = none)
    (hrows : t.Rows = []) :
    runQuery st = .ok [specHeader t.Headers st.selectedColumns] := by
  obtain ⟨idxs, hidx⟩ := columnIndices_known hsel
  simp only [runQuery, ht, hidx, columnIndices_header hidx, hrows, rowLoop]

theorem evaluateWhereClause_operator {w : SQLNode} (headers row : List Str)
    (h : w.Operator ≠ "=".toList) :
    evaluateWhereClause w headers row = .error .unsupportedOperator := by
  simp only [evaluateWhereClause, if_pos h]

theorem evaluateWhereClause_column {w : SQLNode} {headers : List Str} (row : List Str)
    (hop : w.Operator = "=".toList) (h : w.Left ∉ headers) :
    evaluateWhereClause w headers row = .error (.columnNotFound w.Left) := by
  simp only [evaluateWhereClause, if_neg (not_not.mpr hop), headerIndex_none.mpr h]

theorem clausesValid_of_check (up : Char → Char) (readAll : Str → Option (List (List Str)))
    (ast : List SQLNode) (h : validClauses up readAll ast = true) :
    ClausesValid up readAll ast := by
  intro node hn
  have hnode := (List.all_eq_true.mp h) node hn
  simp only [Bool.and_eq_true, Bool.or_eq_true, decide_eq_true_eq] at hnode
  constructor
  · intro hF
    rcases hnode.1 with h1 | h1
    · exact absurd hF h1
    · cases hl : loadCSVTable up readAll (node.Value ++ ".csv".toList) with
      | error e => rw [hl] at h1; cases h1
      | ok t => exact ⟨t, rfl⟩
  · intro hL
    rcases hnode.2 with h1 | h1
    · exact absurd hL h1
    · cases ha : Atoi node.Value with
      | none => rw [ha] at h1; cases h1
      | some k =>
          rw [ha] at h1
          exact ⟨k, rfl, by simpa using h1⟩

theorem scanNode_limit {up : Char → Char} {readAll : Str → Option (List (List Str))}
    (st : ScanState) {l : SQLNode} (hL : l.Type_ = "LIMIT".toList) :
    scanNode up readAll st l =
      (match Atoi l.Value with
       | none => .error (.invalidLimitValue l.Value)
       | some n => if n < 0 then .error .limitNegative else .ok { st with limit := n }) := by
  unfold scanNode
  rw [hL, if_neg (by decide), if_neg (by decide), if_neg (by decide), if_pos rfl]

theorem scanNode_from {up : Char → Char} {readAll : Str → Option (List (List Str))}
    (st : ScanState) {f : SQLNode} (hF : f.Type_ = "FROM".toList) :
    scanNode up readAll st f =
      (match loadCSVTable up readAll (f.Value ++ ".csv".toList) with
       | .error _ => .error (.fileNotFound f.Value)
       | .ok loadedTable => .ok { st with table := some loadedTable }) := by
  unfold scanNode
  rw [hF, if_neg (by decide), if_pos rfl]

/-- The scan fails with the error of the first failing node. -/
theorem scanClauses_first_error {up : Char → Char} {readAll : Str → Option (List (List Str))}
    {before after : List SQLNode} {node : SQLNode} {e : QueryError}
    (hvalid : ClausesValid up readAll before)
    (h : ∀ st, scanNode up readAll st node = .error e) :
    scanClauses up readAll ScanState.init (before ++ node :: after) = .error e := by
  obtain ⟨st, hs⟩ := scanClauses_ok_of_valid ScanState.init hvalid
  rw [scanClauses_append, hs]
  simp only [scanClauses, h st]

/-! ## The claims on the executor -/

/-- C1. Whenever `executeQuery` succeeds on a clause sequence whose last FROM
clause loads the table `t` (each of whose rows has as many cells as there are
headers), the result is exactly the header row, that is the headers at the
selected positions in selection order, followed by the projection onto the
selected positions of the first `n` rows, in source order, among the rows whose
cell in the WHERE column equals the right-hand literal: all rows when there is
no WHERE clause, all matching rows when there is no LIMIT clause, `n` the LIMIT
value otherwise.  Every selected position is a position of the header list. -/
theorem executeQuery_result_exact (up : Char → Char)
    (readAll : Str → Option (List (List Str))) (ast : List SQLNode) (f : SQLNode) (t : Table)
    (result : List (List Str))
    (hF : lastOfType "FROM".toList ast = some f)
    (hload : loadCSVTable up readAll (f.Value ++ ".csv".toList) = .ok t)
    (_hrows : ∀ row ∈ t.Rows, row.length = t.Headers.length)
    (hok : executeQuery up readAll ast = .ok result) :
    result = specResult t (effectiveSelect ast) (lastOfType "WHERE".toList ast)
      (effectiveLimit ast) ∧
    (∀ i ∈ specIndices t.Headers (effectiveSelect ast), i < t.Headers.length) ∧
    (∀ l, lastOfType "LIMIT".toList ast = some l →
      ∃ n : Nat, Atoi l.Value = some (n : Int) ∧ effectiveLimit ast = some n) := by
  obtain ⟨f2, t2, idxs, h1, h2, h3, h4⟩ := executeQuery_ok_spec hok
  rw [hF] at h1
  cases h1
  rw [hload] at h2
  cases h2
  refine ⟨h4, ?_, ?_⟩
  · rw [← columnIndices_ok h3]
    exact selectCells_lt (columnIndices_header h3)
  · intro l hl
    unfold executeQuery at hok
    cases hs : scanClauses up readAll ScanState.init ast with
    | error e => simp only [hs] at hok; cases hok
    | ok st =>
        obtain ⟨k, hk, hk0, _⟩ := (scanClauses_init hs).2.2.2.2.1 l hl
        refine ⟨k.toNat, ?_, ?_⟩
        · rw [hk, Int.toNat_of_nonneg hk0]
        · simp only [effectiveLimit, hl, hk, Option.getD_some]

/-- C1, at the specification's example `SELECT * FROM users WHERE AGE = '25'`. -/
theorem executeQuery_result_exact_witness :
    executeQuery id sampleFiles
        [mkNode "SELECT" "*" "" "" "", mkNode "FROM" "users" "" "" "",
          mkNode "WHERE" "" "AGE" "=" "25"] =
      .ok [["NAME".toList, "AGE".toList], ["Bob".toList, "25".toList]] ∧
    [["NAME".toList, "AGE".toList], ["Bob".toList, "25".toList]] =
      specResult usersTable none (some (mkNode "WHERE" "" "AGE" "=" "25")) none :=
  ⟨rfl, (executeQuery_result_exact id sampleFiles
      [mkNode "SELECT" "*" "" "" "", mkNode "FROM" "users" "" "" "",
        mkNode "WHERE" "" "AGE" "=" "25"]
      (mkNode "FROM" "users" "" "" "") usersTable
      [["NAME".toList, "AGE".toList], ["Bob".toList, "25".toList]]
      rfl rfl (by decide) rfl).1⟩

/-- C2. Whenever `executeQuery` succeeds on a clause sequence whose last FROM
clause loads the table `t` and whose last LIMIT clause carries the non-negative
integer `n`, the number of data rows of the result (its length minus the header
row) is the minimum of `n` and the number of rows of `t` that match the WHERE
predicate, every row matching when there is no WHERE clause. -/
theorem executeQuery_limit_count (up : Char → Char)
    (readAll : Str → Option (List (List Str))) (ast : List SQLNode) (f l : SQLNode)
    (t : Table) (n : Nat) (result : List (List Str))
    (hF : lastOfType "FROM".toList ast = some f)
    (hload : loadCSVTable up readAll (f.Value ++ ".csv".toList) = .ok t)
    (hL : lastOfType "LIMIT".toList ast = some l)
    (hn : Atoi l.Value = some (n : Int))
    (hok : executeQuery up readAll ast = .ok result) :
    result.length - 1 =
      min n (t.Rows.filter (specMatches t.Headers (lastOfType "WHERE".toList ast))).length := by
  obtain ⟨f2, t2, idxs, h1, h2, _, h4⟩ := executeQuery_ok_spec hok
  rw [hF] at h1
  cases h1
  rw [hload] at h2
  cases h2
  have hlim : effectiveLimit ast = some n := by
    simp only [effectiveLimit, hL, hn, Option.getD_some, Int.toNat_ofNat]
  rw [h4, hlim]
  simp [specResult, specLimit, List.length_take]

/-- C2, at the specification's example `SELECT NAME FROM users LIMIT 1`. -/
theorem executeQuery_limit_count_witness :
    executeQuery id sampleFiles
        [mkNode "SELECT" "NAME" "" "" "", mkNode "FROM" "users" "" "" "",
          mkNode "LIMIT" "1" "" "" ""] =
      .ok [["NAME".toList], ["Alice".toList]] ∧
    [["NAME".toList], ["Alice".toList]].length - 1 =
      min 1 (usersTable.Rows.filter (specMatches usersTable.Headers none)).length :=
  ⟨rfl, executeQuery_limit_count id sampleFiles
      [mkNode "SELECT" "NAME" "" "" "", mkNode "FROM" "users" "" "" "",
        mkNode "LIMIT" "1" "" "" ""]
      (mkNode "FROM" "users" "" "" "") (mkNode "LIMIT" "1" "" "" "") usersTable 1
      [["NAME".toList], ["Alice".toList]] rfl rfl rfl rfl rfl⟩

/-- C3. Whenever `executeQuery` succeeds on a clause sequence with no WHERE and
no LIMIT clause whose last FROM clause loads the table `t`, the result has as
many data rows as `t`, and its header row lists the columns in the order the
last SELECT clause names them, or all headers of `t` in their order when that
clause is `*` or when there is no SELECT clause. -/
theorem executeQuery_plain_count (up : Char → Char)
    (readAll : Str → Option (List (List Str))) (ast : List SQLNode) (f : SQLNode)
    (t : Table) (result : List (List Str))
    (hF : lastOfType "FROM".toList ast = some f)
    (hload : loadCSVTable up readAll (f.Value ++ ".csv".toList) = .ok t)
    (hW : ∀ node ∈ ast, node.Type_ ≠ "WHERE".toList)
    (hL : ∀ node ∈ ast, node.Type_ ≠ "LIMIT".toList)
    (hok : executeQuery up readAll ast = .ok result) :
    result.length - 1 = t.Rows.length ∧
    result.head? = some (match lastOfType "SELECT".toList ast with
      | none => t.Headers
      | some s => if s.Value = "*".toList then t.Headers else Split s.Value ", ".toList) := by
  obtain ⟨f2, t2, idxs, h1, h2, h3, h4⟩ := executeQuery_ok_spec hok
  rw [hF] at h1
  cases h1
  rw [hload] at h2
  cases h2
  have hlim : effectiveLimit ast = none := by
    simp only [effectiveLimit, lastOfType_eq_none.mpr hL]
  have hhead := selectCells_some (columnIndices_header h3)
  rw [columnIndices_ok h3] at hhead
  rw [h4, hlim, lastOfType_eq_none.mpr hW]
  constructor
  · simp [specResult, specLimit, specMatches]
  · simp only [specResult, List.head?_cons]
    rw [← hhead]
    unfold effectiveSelect
    cases lastOfType "SELECT".toList ast with
    | none => rfl
    | some s =>
        simp only [selectList]
        by_cases hv : s.Value = "*".toList
        · simp only [if_pos hv, specHeader]
        · simp only [if_neg hv, specHeader]

/-- C3, at the query `SELECT AGE, NAME FROM users`. -/
theorem executeQuery_plain_count_witness :
    executeQuery id sampleFiles
        [mkNode "SELECT" "AGE, NAME" "" "" "", mkNode "FROM" "users" "" "" ""] =
      .ok [["AGE".toList, "NAME".toList], ["30".toList, "Alice".toList],
        ["25".toList, "Bob".toList]] ∧
    ([["AGE".toList, "NAME".toList], ["30".toList, "Alice".toList],
        ["25".toList, "Bob".toList]].length - 1 = usersTable.Rows.length ∧
      [["AGE".toList, "NAME".toList], ["30".toList, "Alice".toList],
        ["25".toList, "Bob".toList]].head? = some ["AGE".toList, "NAME".toList]) :=
  ⟨rfl, executeQuery_plain_count id sampleFiles
      [mkNode "SELECT" "AGE, NAME" "" "" "", mkNode "FROM" "users" "" "" ""]
      (mkNode "FROM" "users" "" "" "") usersTable
      [["AGE".toList, "NAME".toList], ["30".toList, "Alice".toList],
        ["25".toList, "Bob".toList]]
      rfl rfl (by decide) (by decide) rfl⟩

/-- C4, as stated, fails: on a table without data rows a WHERE clause naming an
unknown column is never evaluated and the query succeeds; with an operator
other than `=` the error is the unsupported-operator one; and with a LIMIT
value that is no integer it is the invalid-limit one. -/
theorem where_unknown_column_counterexample :
    lastOfType "WHERE".toList
        [mkNode "SELECT" "*" "" "" "", mkNode "FROM" "empty" "" "" "",
          mkNode "WHERE" "" "FOO" "=" "1"] = some (mkNode "WHERE" "" "FOO" "=" "1") ∧
    "FOO".toList ∉ emptyTable.Headers ∧
    loadCSVTable id sampleFiles "empty.csv".toList = .ok emptyTable ∧
    executeQuery id sampleFiles
        [mkNode "SELECT" "*" "" "" "", mkNode "FROM" "empty" "" "" "",
          mkNode "WHERE" "" "FOO" "=" "1"] = .ok [["NAME".toList, "AGE".toList]] ∧
    executeQuery id sampleFiles
        [mkNode "SELECT" "*" "" "" "", mkNode "FROM" "users" "" "" "",
          mkNode "WHERE" "" "FOO" "<" "1"] = .error .unsupportedOperator ∧
    executeQuery id sampleFiles
        [mkNode "SELECT" "*" "" "" "", mkNode "FROM" "users" "" "" "",
          mkNode "WHERE" "" "FOO" "=" "1", mkNode "LIMIT" "abc" "" "" ""] =
      .error (.invalidLimitValue "abc".toList) :=
  ⟨rfl, by decide, rfl, rfl, rfl, rfl⟩

/-- C4 (amended). For every valid clause sequence (each FROM clause loads, each
LIMIT value is a non-negative integer) whose last FROM clause loads a table `t`
with at least one data row and whose last WHERE clause has the operator `=` and
names a left column that is not among the headers of `t`, `executeQuery` fails
with the unknown-column error, whatever the SELECT list and the LIMIT value
(0 included); the error names the first unknown SELECT column when there is one
and the WHERE column otherwise. -/
theorem where_unknown_column_error (up : Char → Char)
    (readAll : Str → Option (List (List Str))) (ast : List SQLNode) (f w : SQLNode)
    (t : Table)
    (hvalid : ClausesValid up readAll ast)
    (hF : lastOfType "FROM".toList ast = some f)
    (hload : loadCSVTable up readAll (f.Value ++ ".csv".toList) = .ok t)
    (hrows : t.Rows ≠ [])
    (hW : lastOfType "WHERE".toList ast = some w)
    (hop : w.Operator = "=".toList)
    (hcol : w.Left ∉ t.Headers) :
    executeQuery up readAll ast =
      .error (.columnNotFound ((firstUnknown t.Headers (effectiveSelect ast)).getD w.Left)) := by
  obtain ⟨st, hs, ht, hw, hsel⟩ := scan_of_valid hvalid hF hload
  rw [executeQuery_of_scan hs]
  rw [hW] at hw
  cases hu : firstUnknown t.Headers (effectiveSelect ast) with
  | some c =>
      rw [← hsel] at hu
      exact runQuery_unknown ht hu
  | none =>
      rw [← hsel] at hu
      exact runQuery_where_error ht hu hw hrows
        (fun row => evaluateWhereClause_column row hop hcol)

/-- C4 (amended), at `SELECT NAME FROM users LIMIT 0 WHERE FOO = 1`. -/
theorem where_unknown_column_error_witness :
    usersTable.Rows ≠ [] ∧
    executeQuery id sampleFiles
        [mkNode "SELECT" "NAME" "" "" "", mkNode "FROM" "users" "" "" "",
          mkNode "LIMIT" "0" "" "" "", mkNode "WHERE" "" "FOO" "=" "1"] =
      .error (.columnNotFound "FOO".toList) :=
  ⟨by decide, where_unknown_column_error id sampleFiles
      [mkNode "SELECT" "NAME" "" "" "", mkNode "FROM" "users" "" "" "",
        mkNode "LIMIT" "0" "" "" "", mkNode "WHERE" "" "FOO" "=" "1"]
      (mkNode "FROM" "users" "" "" "") (mkNode "WHERE" "" "FOO" "=" "1") usersTable
      (clausesValid_of_check _ _ _ rfl) rfl rfl (by decide) rfl rfl (by decide)⟩

/-- C5, as stated, fails: on a table without data rows a WHERE clause with the
operator `<` is never evaluated and the query succeeds, with or without
`LIMIT 0`; with an unknown SELECT column the error is the unknown-column one,
and with a LIMIT value that is no integer it is the invalid-limit one. -/
theorem where_operator_counterexample :
    lastOfType "WHERE".toList
        [mkNode "SELECT" "*" "" "" "", mkNode "FROM" "empty" "" "" "",
          mkNode "WHERE" "" "AGE" "<" "1"] = some (mkNode "WHERE" "" "AGE" "<" "1") ∧
    loadCSVTable id sampleFiles "empty.csv".toList = .ok emptyTable ∧
    executeQuery id sampleFiles
        [mkNode "SELECT" "*" "" "" "", mkNode "FROM" "empty" "" "" "",
          mkNode "WHERE" "" "AGE" "<" "1"] = .ok [["NAME".toList, "AGE".toList]] ∧
    executeQuery id sampleFiles
        [mkNode "SELECT" "*" "" "" "", mkNode "FROM" "empty" "" "" "",
          mkNode "WHERE" "" "AGE" "<" "1", mkNode "LIMIT" "0" "" "" ""] =
      .ok [["NAME".toList, "AGE".toList]] ∧
    executeQuery id sampleFiles
        [mkNode "SELECT" "FOO" "" "" "", mkNode "FROM" "users" "" "" "",
          mkNode "WHERE" "" "AGE" "<" "1"] = .error (.columnNotFound "FOO".toList) ∧
    executeQuery id sampleFiles
        [mkNode "SELECT" "*" "" "" "", mkNode "FROM" "users" "" "" "",
          mkNode "WHERE" "" "AGE" "<" "1", mkNode "LIMIT" "abc" "" "" ""] =
      .error (.invalidLimitValue "abc".toList) :=
  ⟨rfl, rfl, rfl, rfl, rfl, rfl⟩

/-- C5 (amended). For every valid clause sequence (each FROM clause loads, each
LIMIT value is a non-negative integer, each SELECT column is a header) whose
last FROM clause loads a table `t` with at least one data row and whose last
WHERE clause has an operator other than `=`, `executeQuery` fails with the
unsupported-operator error, for every LIMIT value, 0 included. -/
theorem where_operator_error (up : Char → Char)
    (readAll : Str → Option (List (List Str))) (ast : List SQLNode) (f w : SQLNode)
    (t : Table)
    (hvalid : ClausesValid up readAll ast)
    (hF : lastOfType "FROM".toList ast = some f)
    (hload : loadCSVTable up readAll (f.Value ++ ".csv".toList) = .ok t)
    (hrows : t.Rows ≠ [])
    (hsel : firstUnknown t.Headers (effectiveSelect ast) = none)
    (hW : lastOfType "WHERE".toList ast = some w)
    (hop : w.Operator ≠ "=".toList) :
    executeQuery up readAll ast = .error .unsupportedOperator := by
  obtain ⟨st, hs, ht, hw, hsel2⟩ := scan_of_valid hvalid hF hload
  rw [executeQuery_of_scan hs]
  rw [hW] at hw
  rw [← hsel2] at hsel
  exact runQuery_where_error ht hsel hw hrows
    (fun row => evaluateWhereClause_operator t.Headers row hop)

/-- C5 (amended), at `SELECT NAME FROM users LIMIT 0 WHERE AGE < 30`. -/
theorem where_operator_error_witness :
    usersTable.Rows ≠ [] ∧
    executeQuery id sampleFiles
        [mkNode "SELECT" "NAME" "" "" "", mkNode "FROM" "users" "" "" "",
          mkNode "LIMIT" "0" "" "" "", mkNode "WHERE" "" "AGE" "<" "30"] =
      .error .unsupportedOperator :=
  ⟨by decide, where_operator_error id sampleFiles
      [mkNode "SELECT" "NAME" "" "" "", mkNode "FROM" "users" "" "" "",
        mkNode "LIMIT" "0" "" "" "", mkNode "WHERE" "" "AGE" "<" "30"]
      (mkNode "FROM" "users" "" "" "") (mkNode "WHERE" "" "AGE" "<" "30") usersTable
      (clausesValid_of_check _ _ _ rfl) rfl rfl (by decide) rfl rfl (by decide)⟩

/-- C6. For every valid clause sequence (each FROM clause loads, each LIMIT
value is a non-negative integer) whose last FROM clause loads the table `t` and
whose effective SELECT list `cols` contains a name that is not a header of `t`,
`executeQuery` fails, returning no rows, with the unknown-column error naming
the first such name of `cols`. -/
theorem select_unknown_column_error (up : Char → Char)
    (readAll : Str → Option (List (List Str))) (ast : List SQLNode) (f : SQLNode)
    (t : Table) (cols : List Str)
    (hvalid : ClausesValid up readAll ast)
    (hF : lastOfType "FROM".toList ast = some f)
    (hload : loadCSVTable up readAll (f.Value ++ ".csv".toList) = .ok t)
    (hsel : effectiveSelect ast = some cols)
    (hex : ∃ c ∈ cols, c ∉ t.Headers) :
    ∃ c, cols.find? (fun c => decide (c ∉ t.Headers)) = some c ∧
      executeQuery up readAll ast = .error (.columnNotFound c) := by
  obtain ⟨st, hs, ht, _, hsel2⟩ := scan_of_valid hvalid hF hload
  rw [executeQuery_of_scan hs]
  cases hfind : cols.find? (fun c => decide (c ∉ t.Headers)) with
  | none =>
      obtain ⟨c, hc, hn⟩ := hex
      have := List.find?_eq_none.mp hfind c hc
      simp only [decide_eq_true_eq, not_not] at this
      exact absurd this hn
  | some c =>
      refine ⟨c, rfl, ?_⟩
      apply runQuery_unknown ht
      rw [hsel2, hsel]
      exact hfind

/-- C6, at the specification's example `SELECT FOO FROM users`. -/
theorem select_unknown_column_error_witness :
    executeQuery id sampleFiles
        [mkNode "SELECT" "FOO" "" "" "", mkNode "FROM" "users" "" "" ""] =
      .error (.columnNotFound "FOO".toList) ∧
    ∃ c, ["FOO".toList].find? (fun c => decide (c ∉ usersTable.Headers)) = some c ∧
      executeQuery id sampleFiles
        [mkNode "SELECT" "FOO" "" "" "", mkNode "FROM" "users" "" "" ""] =
      .error (.columnNotFound c) :=
  ⟨rfl, select_unknown_column_error id sampleFiles
      [mkNode "SELECT" "FOO" "" "" "", mkNode "FROM" "users" "" "" ""]
      (mkNode "FROM" "users" "" "" "") usersTable ["FOO".toList]
      (clausesValid_of_check _ _ _ rfl) rfl rfl rfl ⟨"FOO".toList, by decide, by decide⟩⟩

/-- C7. A clause sequence without FROM clause whose LIMIT values are all
non-negative integers makes `executeQuery` fail with the missing-FROM error,
whatever its SELECT, WHERE and LIMIT clauses; and when the loader fails for the
table named by some FROM clause of the sequence, `executeQuery` fails, with the
file-not-found error of that clause when the clauses before it are valid. -/
theorem missing_from_error (up : Char → Char) (readAll : Str → Option (List (List Str))) :
    (∀ ast : List SQLNode, (∀ node ∈ ast, node.Type_ ≠ "FROM".toList) →
      (∀ node ∈ ast, node.Type_ = "LIMIT".toList →
        ∃ k : Int, Atoi node.Value = some k ∧ 0 ≤ k) →
      executeQuery up readAll ast = .error .noFromClause) ∧
    (∀ (ast : List SQLNode) (f : SQLNode), f ∈ ast → f.Type_ = "FROM".toList →
      (∀ t, loadCSVTable up readAll (f.Value ++ ".csv".toList) ≠ .ok t) →
      ∃ e, executeQuery up readAll ast = .error e) ∧
    (∀ (before after : List SQLNode) (f : SQLNode), ClausesValid up readAll before →
      f.Type_ = "FROM".toList →
      (∀ t, loadCSVTable up readAll (f.Value ++ ".csv".toList) ≠ .ok t) →
      executeQuery up readAll (before ++ f :: after) = .error (.fileNotFound f.Value)) := by
  refine ⟨?_, ?_, ?_⟩
  · intro ast hno hlim
    have hvalid : ClausesValid up readAll ast :=
      fun node hn => ⟨fun hF => absurd hF (hno node hn), hlim node hn⟩
    obtain ⟨st, hs⟩ := scanClauses_ok_of_valid ScanState.init hvalid
    have htab := (scanClauses_init hs).2.2.2.2.2.1 (lastOfType_eq_none.mpr hno)
    rw [executeQuery_of_scan hs]
    simp only [runQuery, htab]
  · intro ast f hf hF hfail
    cases hs : scanClauses up readAll ScanState.init ast with
    | error e => exact ⟨e, executeQuery_scan_error hs⟩
    | ok st =>
        obtain ⟨t, ht⟩ := (scanClauses_valid hs f hf).1 hF
        exact absurd ht (hfail t)
  · intro before after f hvalid hF hfail
    apply executeQuery_scan_error
    apply scanClauses_first_error hvalid
    intro st
    rw [scanNode_from st hF]
    cases hl : loadCSVTable up readAll (f.Value ++ ".csv".toList) with
    | error e => rfl
    | ok t => exact absurd hl (hfail t)

/-- C7, at `SELECT * WHERE AGE = 25 LIMIT 5` (no FROM clause) and at the
specification's example `SELECT * FROM missing`. -/
theorem missing_from_error_witness :
    executeQuery id sampleFiles
        [mkNode "SELECT" "*" "" "" "", mkNode "WHERE" "" "AGE" "=" "25",
          mkNode "LIMIT" "5" "" "" ""] = .error .noFromClause ∧
    executeQuery id sampleFiles
        ([mkNode "SELECT" "*" "" "" ""] ++ mkNode "FROM" "missing" "" "" "" :: []) =
      .error (.fileNotFound "missing".toList) :=
  ⟨(missing_from_error id sampleFiles).1
      [mkNode "SELECT" "*" "" "" "", mkNode "WHERE" "" "AGE" "=" "25",
        mkNode "LIMIT" "5" "" "" ""]
      (by decide)
      (fun node hn => (clausesValid_of_check id sampleFiles
        [mkNode "SELECT" "*" "" "" "", mkNode "WHERE" "" "AGE" "=" "25",
          mkNode "LIMIT" "5" "" "" ""] rfl node hn).2),
   (missing_from_error id sampleFiles).2.2 [mkNode "SELECT" "*" "" "" ""] []
      (mkNode "FROM" "missing" "" "" "") (clausesValid_of_check _ _ _ rfl) rfl
      (fun t h => by cases h)⟩

/-- C8. A LIMIT clause whose value `strconv.Atoi` rejects, or parses to a
negative integer, makes `executeQuery` fail; when the clauses before it are
valid the failure is the invalid-limit error (`invalid LIMIT value` for an
unparseable value, `LIMIT value must be non-negative` for a negative one).  A
value that parses to a non-negative integer `k`, 0 included, passes the check
and becomes the limit.  After a successful scan the limit is the marker `-1`
exactly when the sequence has no LIMIT clause, so no LIMIT value selects it. -/
theorem limit_value_check (up : Char → Char) (readAll : Str → Option (List (List Str))) :
    (∀ (ast : List SQLNode) (l : SQLNode), l ∈ ast → l.Type_ = "LIMIT".toList →
      (Atoi l.Value = none ∨ ∃ k : Int, Atoi l.Value = some k ∧ k < 0) →
      ∃ e, executeQuery up readAll ast = .error e) ∧
    (∀ (before after : List SQLNode) (l : SQLNode), ClausesValid up readAll before →
      l.Type_ = "LIMIT".toList →
      (Atoi l.Value = none →
        executeQuery up readAll (before ++ l :: after) =
          .error (.invalidLimitValue l.Value)) ∧
      (∀ k : Int, Atoi l.Value = some k → k < 0 →
        executeQuery up readAll (before ++ l :: after) = .error .limitNegative)) ∧
    (∀ (before : List SQLNode) (l : SQLNode) (k : Int), ClausesValid up readAll before →
      l.Type_ = "LIMIT".toList → Atoi l.Value = some k → 0 ≤ k →
      ∃ st, scanClauses up readAll ScanState.init (before ++ [l]) = .ok st ∧ st.limit = k) ∧
    (∀ (ast : List SQLNode) (st : ScanState),
      scanClauses up readAll ScanState.init ast = .ok st →
      (st.limit = -1 ↔ ∀ node ∈ ast, node.Type_ ≠ "LIMIT".toList)) := by
  refine ⟨?_, ?_, ?_, ?_⟩
  · intro ast l hl hL hbad
    cases hs : scanClauses up readAll ScanState.init ast with
    | error e => exact ⟨e, executeQuery_scan_error hs⟩
    | ok st =>
        obtain ⟨k, hk, hk0⟩ := (scanClauses_valid hs l hl).2 hL
        rcases hbad with hnone | ⟨k2, hk2, hneg⟩
        · rw [hnone] at hk; cases hk
        · rw [hk2] at hk
          cases hk
          omega
  · intro before after l hvalid hL
    constructor
    · intro hnone
      apply executeQuery_scan_error
      apply scanClauses_first_error hvalid
      intro st
      rw [scanNode_limit st hL]
      simp only [hnone]
    · intro k hk hneg
      apply executeQuery_scan_error
      apply scanClauses_first_error hvalid
      intro st
      rw [scanNode_limit st hL]
      simp only [hk, if_pos hneg]
  · intro before l k hvalid hL hk hk0
    obtain ⟨st, hs⟩ := scanClauses_ok_of_valid ScanState.init hvalid
    refine ⟨{ st with limit := k }, ?_, rfl⟩
    rw [scanClauses_append, hs]
    simp only [scanClauses, scanNode_limit st hL, hk, if_neg (not_lt.mpr hk0)]
  · intro ast st hs
    obtain ⟨_, _, _, e4, e5, _, _⟩ := scanClauses_init hs
    constructor
    · intro hm
      apply lastOfType_eq_none.mp
      cases hl : lastOfType "LIMIT".toList ast with
      | none => rfl
      | some n =>
          obtain ⟨k, _, hk0, hk⟩ := e5 n hl
          omega
    · intro hno
      exact e4 (lastOfType_eq_none.mpr hno)

/-- C8, at `FROM users LIMIT abc`, `FROM users LIMIT -1` and `FROM users LIMIT 0`. -/
theorem limit_value_check_witness :
    executeQuery id sampleFiles
        ([mkNode "FROM" "users" "" "" ""] ++ mkNode "LIMIT" "abc" "" "" "" :: []) =
      .error (.invalidLimitValue "abc".toList) ∧
    executeQuery id sampleFiles
        ([mkNode "FROM" "users" "" "" ""] ++ mkNode "LIMIT" "-1" "" "" "" :: []) =
      .error .limitNegative ∧
    ∃ st, scanClauses id sampleFiles ScanState.init
        ([mkNode "FROM" "users" "" "" ""] ++ [mkNode "LIMIT" "0" "" "" ""]) = .ok st ∧
      st.limit = 0 :=
  ⟨((limit_value_check id sampleFiles).2.1 [mkNode "FROM" "users" "" "" ""] []
      (mkNode "LIMIT" "abc" "" "" "") (clausesValid_of_check _ _ _ rfl) rfl).1 rfl,
   ((limit_value_check id sampleFiles).2.1 [mkNode "FROM" "users" "" "" ""] []
      (mkNode "LIMIT" "-1" "" "" "") (clausesValid_of_check _ _ _ rfl) rfl).2 (-1) rfl
      (by decide),
   (limit_value_check id sampleFiles).2.2.1 [mkNode "FROM" "users" "" "" ""]
      (mkNode "LIMIT" "0" "" "" "") 0 (clausesValid_of_check _ _ _ rfl) rfl rfl (by decide)⟩

/-! ## Lemmas on the tokenizer -/

theorem flush_eq (tokens : List Str) (cur : Str) : flush tokens cur = tokens ++ flush [] cur := by
  unfold flush
  by_cases h : cur.length > 0
  · simp [h]
  · simp [h]

/-- The tokens already emitted are a prefix of the final result. -/
theorem tokenizeLoop_tokens (s : Str) (tokens : List Str) (cur : Str) (q : Bool) :
    tokenizeLoop s tokens cur q = tokens ++ tokenizeLoop s [] cur q := by
  induction s generalizing tokens cur q with
  | nil => simp only [tokenizeLoop]; exact flush_eq tokens cur
  | cons c rest ih =>
      unfold tokenizeLoop
      by_cases h1 : c = quote
      · simp only [if_pos h1]; exact ih _ _ _
      · simp only [if_neg h1]
        by_cases h2 : c = ' ' ∧ q = false
        · simp only [if_pos h2]
          rw [ih (flush tokens cur), ih (flush [] cur), flush_eq tokens cur, List.append_assoc]
        · simp only [if_neg h2]
          by_cases h3 : c = ',' ∧ q = false
          · simp only [if_pos h3]
            rw [ih (flush tokens cur ++ [[',']]), ih (flush [] cur ++ [[',']]),
              flush_eq tokens cur]
            simp only [List.append_assoc]
          · simp only [if_neg h3]
            by_cases h4 : c = '=' ∧ q = false
            · simp only [if_pos h4]
              rw [ih (flush tokens cur ++ [['=']]), ih (flush [] cur ++ [['=']]),
                flush_eq tokens cur]
              simp only [List.append_assoc]
            · simp only [if_neg h4]; exact ih _ _ _

/-- The four ways one character is handled, on the tokens emitted from an empty
token list. -/
theorem tokenizeLoop_cons (c : Char) (rest cur : Str) (q : Bool) :
    tokenizeLoop (c :: rest) [] cur q =
      if c = quote then tokenizeLoop rest [] (cur ++ [c]) (!q)
      else if c = ' ' ∧ q = false then flush [] cur ++ tokenizeLoop rest [] [] false
      else if c = ',' ∧ q = false then
        flush [] cur ++ ([','] :: tokenizeLoop rest [] [] false)
      else if c = '=' ∧ q = false then
        flush [] cur ++ (['='] :: tokenizeLoop rest [] [] false)
      else tokenizeLoop rest [] (cur ++ [c]) q := by
  rw [tokenizeLoop]
  by_cases h1 : c = quote
  · simp only [if_pos h1]
  · simp only [if_neg h1]
    by_cases h2 : c = ' ' ∧ q = false
    · simp only [if_pos h2]
      rw [tokenizeLoop_tokens, h2.2]
    · simp only [if_neg h2]
      by_cases h3 : c = ',' ∧ q = false
      · simp only [if_pos h3]
        rw [tokenizeLoop_tokens, h3.2]
        simp
      · simp only [if_neg h3]
        by_cases h4 : c = '=' ∧ q = false
        · simp only [if_pos h4]
          rw [tokenizeLoop_tokens, h4.2]
          simp
        · simp only [if_neg h4]

theorem quoteState_append (q : Bool) (a b : Str) :
    quoteState q (a ++ b) = quoteState (quoteState q a) b := by
  induction a generalizing q with
  | nil => rfl
  | cons c cs ih => simp only [List.cons_append, quoteState]; exact ih _

theorem unquoted_append (q : Bool) (a b : Str) :
    unquoted q (a ++ b) = unquoted q a ++ unquoted (quoteState q a) b := by
  induction a generalizing q with
  | nil => rfl
  | cons c cs ih =>
      simp only [List.cons_append, unquoted, quoteState]
      by_cases h1 : c = quote
      · simp only [if_pos h1]; exact ih _
      · simp only [if_neg h1]
        cases q with
        | true => simp only [if_true]; exact ih _
        | false => simp [ih]

theorem quoted_append (q : Bool) (a b : Str) :
    quoted q (a ++ b) = quoted q a ++ quoted (quoteState q a) b := by
  induction a generalizing q with
  | nil => rfl
  | cons c cs ih =>
      simp only [List.cons_append, quoted, quoteState]
      by_cases h1 : c = quote
      · simp only [if_pos h1]; exact ih _
      · simp only [if_neg h1]
        cases q with
        | true => simp [ih]
        | false => simp [ih]

theorem quoteState_snoc (cur : Str) (c : Char) :
    quoteState false (cur ++ [c]) =
      (if c = quote then !(quoteState false cur) else quoteState false cur) := by
  rw [quoteState_append]
  simp only [quoteState]

theorem clean_nil : Clean [] := by
  intro c hc
  cases hc

theorem clean_snoc_quote {cur : Str} (h : Clean cur) : Clean (cur ++ [quote]) := by
  intro c hc
  rw [unquoted_append] at hc
  simp only [unquoted, if_true, List.append_nil] at hc
  exact h c hc

theorem clean_snoc {cur : Str} {c : Char} (h : Clean cur) (hq : c ≠ quote)
    (hc : quoteState false cur = true ∨ (c ≠ ',' ∧ c ≠ '=' ∧ c ≠ ' ')) :
    Clean (cur ++ [c]) := by
  intro d hd
  rw [unquoted_append] at hd
  simp only [unquoted, if_neg hq] at hd
  rcases hc with hin | hsep
  · rw [hin] at hd
    simp only [if_true, List.append_nil] at hd
    exact h d hd
  · cases hst : quoteState false cur with
    | true =>
        rw [hst] at hd
        simp only [if_true, List.append_nil] at hd
        exact h d hd
    | false =>
        rw [hst] at hd
        simp only [Bool.false_eq_true, if_false, List.mem_append, List.mem_singleton] at hd
        rcases hd with hd | rfl
        · exact h d hd
        · exact hsep

theorem mem_flush {cur t : Str} (h : t ∈ flush [] cur) : t = cur ∧ cur ≠ [] := by
  unfold flush at h
  by_cases hl : cur.length > 0
  · simp only [if_pos hl, List.nil_append, List.mem_singleton] at h
    exact ⟨h, fun e => by rw [e] at hl; exact absurd hl (by decide)⟩
  · simp only [if_neg hl] at h
    cases h

/-- Every token of the scan has the shape of a token, provided the token under
construction has no separator outside its quoted regions and the quote flag is
the quote state of that token. -/
theorem tokenizeLoop_good (s : Str) (cur : Str) (q : Bool)
    (hq : quoteState false cur = q) (hc : Clean cur) :
    ∀ t ∈ tokenizeLoop s [] cur q, GoodToken t := by
  induction s generalizing cur q with
  | nil =>
      intro t ht
      simp only [tokenizeLoop] at ht
      obtain ⟨rfl, hne⟩ := mem_flush ht
      exact ⟨hne, Or.inr (Or.inr hc)⟩
  | cons c rest ih =>
      intro t ht
      rw [tokenizeLoop_cons] at ht
      have hflush : ∀ t, t ∈ flush [] cur → GoodToken t := by
        intro t ht
        obtain ⟨rfl, hne⟩ := mem_flush ht
        exact ⟨hne, Or.inr (Or.inr hc)⟩
      by_cases h1 : c = quote
      · simp only [if_pos h1] at ht
        subst h1
        refine ih (cur ++ [quote]) (!q) ?_ (clean_snoc_quote hc) t ht
        rw [quoteState_snoc, if_pos rfl, hq]
      · simp only [if_neg h1] at ht
        by_cases h2 : c = ' ' ∧ q = false
        · simp only [if_pos h2, List.mem_append] at ht
          rcases ht with ht | ht
          · exact hflush t ht
          · exact ih [] false rfl clean_nil t ht
        · simp only [if_neg h2] at ht
          by_cases h3 : c = ',' ∧ q = false
          · simp only [if_pos h3, List.mem_append, List.mem_cons] at ht
            rcases ht with ht | rfl | ht
            · exact hflush t ht
            · exact ⟨by simp, Or.inl rfl⟩
            · exact ih [] false rfl clean_nil t ht
          · simp only [if_neg h3] at ht
            by_cases h4 : c = '=' ∧ q = false
            · simp only [if_pos h4, List.mem_append, List.mem_cons] at ht
              rcases ht with ht | rfl | ht
              · exact hflush t ht
              · exact ⟨by simp, Or.inr (Or.inl rfl)⟩
              · exact ih [] false rfl clean_nil t ht
            · simp only [if_neg h4] at ht
              refine ih (cur ++ [c]) q ?_ ?_ t ht
              · rw [quoteState_snoc, if_neg h1, hq]
              · apply clean_snoc hc h1
                rw [hq]
                cases q with
                | true => exact Or.inl rfl
                | false =>
                    right
                    exact ⟨fun e => h3 ⟨e, rfl⟩, fun e => h4 ⟨e, rfl⟩, fun e => h2 ⟨e, rfl⟩⟩

theorem filter_flush {cur : Str} (hc : Clean cur) :
    (flush [] cur).filter (fun t => decide (t = [','] ∨ t = ['='])) = [] := by
  rw [List.filter_eq_nil_iff]
  intro t ht
  obtain ⟨rfl, _⟩ := mem_flush ht
  simp only [decide_eq_true_eq]
  rintro (e | e)
  · have hmem : ',' ∈ unquoted false t := by
      rw [e]
      have hne : ¬ (',' = quote) := by decide
      simp [unquoted, hne]
    exact (hc ',' hmem).1 rfl
  · have hmem : '=' ∈ unquoted false t := by
      rw [e]
      have hne : ¬ ('=' = quote) := by decide
      simp [unquoted, hne]
    exact (hc '=' hmem).2.1 rfl

/-- The standalone comma and equals tokens of the scan are, in order, the
commas and equals signs outside quotes in the text scanned. -/
theorem tokenizeLoop_standalone (s : Str) (cur : Str) (q : Bool)
    (hq : quoteState false cur = q) (hc : Clean cur) :
    (tokenizeLoop s [] cur q).filter (fun t => decide (t = [','] ∨ t = ['='])) =
      ((unquoted q s).filter (fun c => decide (c = ',' ∨ c = '='))).map (fun c => [c]) := by
  induction s generalizing cur q with
  | nil =>
      simp only [tokenizeLoop, unquoted, List.filter_nil, List.map_nil]
      exact filter_flush hc
  | cons c rest ih =>
      rw [tokenizeLoop_cons]
      by_cases h1 : c = quote
      · simp only [if_pos h1, unquoted]
        subst h1
        refine ih (cur ++ [quote]) (!q) ?_ (clean_snoc_quote hc)
        rw [quoteState_snoc, if_pos rfl, hq]
      · simp only [if_neg h1, unquoted]
        by_cases h2 : c = ' ' ∧ q = false
        · obtain ⟨rfl, rfl⟩ := h2
          simp only [and_self, if_true, List.filter_append, filter_flush hc,
            List.nil_append, Bool.false_eq_true, if_false, ih [] false rfl clean_nil]
          rw [List.filter_cons_of_neg (by decide)]
        · simp only [if_neg h2]
          by_cases h3 : c = ',' ∧ q = false
          · obtain ⟨rfl, rfl⟩ := h3
            simp only [and_self, if_true, List.filter_append, filter_flush hc,
              List.nil_append, Bool.false_eq_true, if_false]
            rw [List.filter_cons_of_pos (by decide), List.filter_cons_of_pos (by decide),
              ih [] false rfl clean_nil, List.map_cons]
          · simp only [if_neg h3]
            by_cases h4 : c = '=' ∧ q = false
            · obtain ⟨rfl, rfl⟩ := h4
              simp only [and_self, if_true, List.filter_append, filter_flush hc,
                List.nil_append, Bool.false_eq_true, if_false]
              rw [List.filter_cons_of_pos (by decide), List.filter_cons_of_pos (by decide),
                ih [] false rfl clean_nil, List.map_cons]
            · simp only [if_neg h4]
              have hrec := ih (cur ++ [c]) q (by rw [quoteState_snoc, if_neg h1, hq])
                (by
                  apply clean_snoc hc h1
                  rw [hq]
                  cases q with
                  | true => exact Or.inl rfl
                  | false =>
                      right
                      exact ⟨fun e => h3 ⟨e, rfl⟩, fun e => h4 ⟨e, rfl⟩,
                        fun e => h2 ⟨e, rfl⟩⟩)
              rw [hrec]
              cases q with
              | true => simp
              | false =>
                  have hne : ¬ (c = ',' ∨ c = '=') := by
                    rintro (e | e)
                    · exact h3 ⟨e, rfl⟩
                    · exact h4 ⟨e, rfl⟩
                  simp only [Bool.false_eq_true, if_false]
                  rw [List.filter_cons_of_neg (by simpa using hne)]

theorem flatMap_flush (cur : Str) :
    (flush [] cur).flatMap (quoted false) = quoted false cur := by
  unfold flush
  by_cases hl : cur.length > 0
  · simp [hl]
  · have : cur = [] := by
      cases cur with
      | nil => rfl
      | cons a b => simp at hl
    subst this
    simp [quoted]

/-- The quoted content of the tokens of the scan, token by token, is the quoted
content of the token under construction followed by that of the text. -/
theorem tokenizeLoop_quoted (s : Str) (cur : Str) (q : Bool)
    (hq : quoteState false cur = q) :
    (tokenizeLoop s [] cur q).flatMap (quoted false) = quoted false cur ++ quoted q s := by
  induction s generalizing cur q with
  | nil =>
      simp only [tokenizeLoop, quoted, List.append_nil]
      exact flatMap_flush cur
  | cons c rest ih =>
      rw [tokenizeLoop_cons]
      by_cases h1 : c = quote
      · simp only [if_pos h1, quoted]
        subst h1
        rw [ih (cur ++ [quote]) (!q) (by rw [quoteState_snoc, if_pos rfl, hq]), quoted_append]
        simp [quoted]
      · simp only [if_neg h1, quoted]
        by_cases h2 : c = ' ' ∧ q = false
        · obtain ⟨rfl, rfl⟩ := h2
          simp only [and_self, if_true, List.flatMap_append, flatMap_flush,
            ih [] false rfl, Bool.false_eq_true, if_false]
          simp [quoted]
        · simp only [if_neg h2]
          by_cases h3 : c = ',' ∧ q = false
          · obtain ⟨rfl, rfl⟩ := h3
            simp only [and_self, if_true, List.flatMap_append, flatMap_flush,
              List.flatMap_cons, ih [] false rfl, Bool.false_eq_true, if_false]
            simp [quoted, quote]
          · simp only [if_neg h3]
            by_cases h4 : c = '=' ∧ q = false
            · obtain ⟨rfl, rfl⟩ := h4
              simp only [and_self, if_true, List.flatMap_append, flatMap_flush,
                List.flatMap_cons, ih [] false rfl, Bool.false_eq_true, if_false]
              simp [quoted, quote]
            · simp only [if_neg h4]
              rw [ih (cur ++ [c]) q (by rw [quoteState_snoc, if_neg h1, hq]), quoted_append, hq]
              cases q with
              | true => simp [quoted, h1]
              | false => simp [quoted, h1]

/-! ## The claims on the tokenizer -/

/-- C10. For every text, every token of `tokenize` is non-empty and is exactly
`,`, or exactly `=`, or a token without comma, equals sign or space outside its
single-quoted regions; the standalone `,` and `=` tokens are, in order, the
commas and equals signs that lie outside quotes in the text; and the quoted
content of the tokens, token by token, is the quoted content of the text, so
that commas, equals signs and spaces inside quotes stay inside a token.  The
texts `a=b,c` and `x = 'p, q=r'` give the tokens the claim lists. -/
theorem tokenize_token_shape (sql : Str) :
    (∀ tok ∈ tokenize sql, tok ≠ [] ∧
      (tok = [','] ∨ tok = ['='] ∨
        ∀ c ∈ unquoted false tok, c ≠ ',' ∧ c ≠ '=' ∧ c ≠ ' ')) ∧
    (tokenize sql).filter (fun t => decide (t = [','] ∨ t = ['='])) =
      ((unquoted false sql).filter (fun c => decide (c = ',' ∨ c = '='))).map (fun c => [c]) ∧
    (tokenize sql).flatMap (quoted false) = quoted false sql ∧
    tokenize "a=b,c".toList = ["a".toList, "=".toList, "b".toList, ",".toList, "c".toList] ∧
    tokenize "x = 'p, q=r'".toList = ["x".toList, "=".toList, "'p, q=r'".toList] := by
  refine ⟨?_, ?_, ?_, rfl, rfl⟩
  · intro tok ht
    exact tokenizeLoop_good sql [] false rfl clean_nil tok ht
  · exact tokenizeLoop_standalone sql [] false rfl clean_nil
  · have := tokenizeLoop_quoted sql [] false rfl
    simpa [quoted] using this

/-- C10, at the text `x = 'p, q=r'`: its third token keeps the quoted comma,
space and equals sign. -/
theorem tokenize_token_shape_witness :
    "'p, q=r'".toList ∈ tokenize "x = 'p, q=r'".toList ∧
    ("'p, q=r'".toList ≠ [] ∧
      ("'p, q=r'".toList = [','] ∨ "'p, q=r'".toList = ['='] ∨
        ∀ c ∈ unquoted false "'p, q=r'".toList, c ≠ ',' ∧ c ≠ '=' ∧ c ≠ ' ')) :=
  ⟨by decide, (tokenize_token_shape "x = 'p, q=r'".toList).1 "'p, q=r'".toList (by decide)⟩

/-! ## Lemmas on the parser -/

/-- A run of characters that are neither space, quote, comma nor equals sign is
appended to the token under construction. -/
theorem tokenizeLoop_word (w rest : Str) (tokens : List Str) (cur : Str)
    (hw : ∀ c ∈ w, c ≠ ' ' ∧ c ≠ quote ∧ c ≠ ',' ∧ c ≠ '=') :
    tokenizeLoop (w ++ rest) tokens cur false = tokenizeLoop rest tokens (cur ++ w) false := by
  induction w generalizing cur with
  | nil => simp
  | cons c cs ih =>
      have hc := hw c (List.mem_cons_self _ _)
      rw [List.cons_append, tokenizeLoop, if_neg hc.2.1, if_neg (fun h => hc.1 h.1),
        if_neg (fun h => hc.2.2.1 h.1), if_neg (fun h => hc.2.2.2 h.1),
        ih (cur ++ [c]) (fun d hd => hw d (List.mem_cons_of_mem _ hd))]
      simp

theorem tokenizeLoop_space (rest : Str) (tokens : List Str) (cur : Str) :
    tokenizeLoop (' ' :: rest) tokens cur false = tokenizeLoop rest (flush tokens cur) [] false := by
  have h : ¬ (' ' = quote) := by decide
  simp only [tokenizeLoop, if_neg h, and_self, if_true]

theorem flush_word (tokens : List Str) {w : Str} (hw : w ≠ []) :
    flush tokens w = tokens ++ [w] := by
  unfold flush
  rw [if_pos (List.length_pos.mpr hw)]

/-- A word followed by a space becomes a token. -/
theorem tokenizeLoop_word_space (w rest : Str) (tokens : List Str) (hw : IsWord w) :
    tokenizeLoop (w ++ ' ' :: rest) tokens [] false =
      tokenizeLoop rest (tokens ++ [w]) [] false := by
  rw [tokenizeLoop_word w _ _ _ hw.2, tokenizeLoop_space, List.nil_append, flush_word _ hw.1]

/-- A word at the end of the text becomes the last token. -/
theorem tokenizeLoop_word_end (w : Str) (tokens : List Str) (hw : IsWord w) :
    tokenizeLoop w tokens [] false = tokens ++ [w] := by
  have := tokenizeLoop_word w [] tokens [] hw.2
  rw [List.append_nil, List.nil_append] at this
  rw [this, tokenizeLoop, flush_word _ hw.1]

/-- Four words separated by single spaces tokenize to the four words. -/
theorem tokenize_four_words (w1 w2 w3 w4 : Str) (h1 : IsWord w1) (h2 : IsWord w2)
    (h3 : IsWord w3) (h4 : IsWord w4) :
    tokenize (w1 ++ ' ' :: (w2 ++ ' ' :: (w3 ++ ' ' :: w4))) = [w1, w2, w3, w4] := by
  unfold tokenize
  rw [tokenizeLoop_word_space w1 _ _ h1, tokenizeLoop_word_space w2 _ _ h2,
    tokenizeLoop_word_space w3 _ _ h3, tokenizeLoop_word_end w4 _ h4]
  rfl

/-- The parse of a SELECT keyword, one column word, a FROM keyword and a table
word that is no keyword. -/
theorem parseLoop_select_from (up : Char → Char) (kS c kF t : Str)
    (hS : ToUpper up kS = "SELECT".toList) (hF : ToUpper up kF = "FROM".toList)
    (hc : c ≠ [',']) (ht : isKeyword up t = false) :
    parseLoop up 4 [kS, c, kF, t] [] =
      .ok (if ToUpper up c = "FROM".toList then
          [{ Type_ := "SELECT".toList, Value := [], Left := [], Operator := [], Right := [] },
           { Type_ := "FROM".toList, Value := [], Left := [], Operator := [], Right := [] },
           { Type_ := "FROM".toList, Value := t, Left := [], Operator := [], Right := [] }]
        else
          [{ Type_ := "SELECT".toList, Value := ToUpper up c, Left := [], Operator := [],
             Right := [] },
           { Type_ := "FROM".toList, Value := t, Left := [], Operator := [], Right := [] }]) := by
  have hkF : isKeyword up kF = true := by
    simp [isKeyword, hF]
  have hne : ¬ ("FROM".toList = "SELECT".toList) := by decide
  by_cases hcF : ToUpper up c = "FROM".toList
  · simp only [parseLoop, hS, hF, hcF, if_true, if_neg hne, collectSelect, collectFrom, hkF, ht,
      ne_eq, not_true_eq_false, if_false, Join, List.nil_append, List.cons_append,
      Bool.true_eq_false]
  · simp only [parseLoop, hS, hF, if_neg hcF, if_true, if_neg hne, collectSelect, collectFrom,
      ht, hcF, ne_eq, not_false_eq_true, hc, if_false, Join, List.nil_append, List.cons_append,
      List.append_nil, not_true_eq_false]

theorem select_query_eq (kS kF c t : Str) :
    kS ++ [' '] ++ c ++ ([' '] ++ kF ++ [' ']) ++ t =
      kS ++ ' ' :: (c ++ ' ' :: (kF ++ ' ' :: t)) := by
  simp

/-- Two queries `<SELECT> c1 <FROM> t` and `<SELECT> c2 <FROM> t`, whose
keywords are spelled in any letter case and whose column words upper-case to
the same text, parse to the same clause sequence. -/
theorem parseSQL_same_upper (up : Char → Char) (kS1 kS2 kF1 kF2 c1 c2 t : Str)
    (hS1 : IsWord kS1) (hS2 : IsWord kS2) (hF1 : IsWord kF1) (hF2 : IsWord kF2)
    (uS1 : ToUpper up kS1 = "SELECT".toList) (uS2 : ToUpper up kS2 = "SELECT".toList)
    (uF1 : ToUpper up kF1 = "FROM".toList) (uF2 : ToUpper up kF2 = "FROM".toList)
    (hc1 : IsWord c1) (hc2 : IsWord c2) (ht : IsWord t)
    (hkey : isKeyword up t = false) (hcase : ToUpper up c1 = ToUpper up c2) :
    parseSQL up (kS1 ++ ' ' :: (c1 ++ ' ' :: (kF1 ++ ' ' :: t))) =
      parseSQL up (kS2 ++ ' ' :: (c2 ++ ' ' :: (kF2 ++ ' ' :: t))) ∧
    ∃ ast, parseSQL up (kS1 ++ ' ' :: (c1 ++ ' ' :: (kF1 ++ ' ' :: t))) = .ok ast ∧
      ast.getLast? = some (valueNode "FROM".toList t) ∧
      (ToUpper up c1 ≠ "FROM".toList →
        ast = [valueNode "SELECT".toList (ToUpper up c1), valueNode "FROM".toList t]) := by
  have hne : ∀ c : Str, IsWord c → c ≠ [','] := by
    intro c hc e
    have := (hc.2 ',' (by rw [e]; exact List.mem_singleton.mpr rfl)).2.2.1
    exact this rfl
  have p1 : parseSQL up (kS1 ++ ' ' :: (c1 ++ ' ' :: (kF1 ++ ' ' :: t))) =
      parseLoop up 4 [kS1, c1, kF1, t] [] := by
    unfold parseSQL
    rw [tokenize_four_words kS1 c1 kF1 t hS1 hc1 hF1 ht]
    rfl
  have p2 : parseSQL up (kS2 ++ ' ' :: (c2 ++ ' ' :: (kF2 ++ ' ' :: t))) =
      parseLoop up 4 [kS2, c2, kF2, t] [] := by
    unfold parseSQL
    rw [tokenize_four_words kS2 c2 kF2 t hS2 hc2 hF2 ht]
    rfl
  rw [p1, p2, parseLoop_select_from up kS1 c1 kF1 t uS1 uF1 (hne c1 hc1) hkey,
    parseLoop_select_from up kS2 c2 kF2 t uS2 uF2 (hne c2 hc2) hkey, hcase]
  refine ⟨rfl, _, rfl, ?_, ?_⟩
  · by_cases h : ToUpper up c2 = "FROM".toList
    · rw [if_pos h]; rfl
    · rw [if_neg h]; rfl
  · intro h
    rw [if_neg h]
    rfl

set_option maxRecDepth 100000 in
/-- The letter-case functions on the ASCII range. -/
theorem ascii_case_table : ∀ n, n < 128 →
    (lowerRune (Char.ofNat n)).toNat ≤ 127 ∧ (upperRune (Char.ofNat n)).toNat ≤ 127 ∧
    upperRune (lowerRune (Char.ofNat n)) = upperRune (upperRune (Char.ofNat n)) := by
  decide

set_option maxRecDepth 100000 in
/-- On the ASCII range the letter-case functions produce no separator. -/
theorem ascii_sep_table : ∀ n, n < 128 →
    (isSep (Char.ofNat n) = false →
      isSep (lowerRune (Char.ofNat n)) = false ∧ isSep (upperRune (Char.ofNat n)) = false) := by
  decide

theorem isSep_false {r : Char} :
    isSep r = false ↔ (r ≠ ' ' ∧ r ≠ quote ∧ r ≠ ',' ∧ r ≠ '=') := by
  simp only [isSep, Bool.or_eq_false_iff, decide_eq_false_iff_not, ne_eq, and_assoc]

theorem toUpperRune_ascii (up : Char → Char) {r : Char} (h : r.toNat ≤ 127) :
    toUpperRune up r = upperRune r := by
  simp only [toUpperRune, if_pos h, upperRune]

theorem lowerRune_not_ascii {r : Char} (h : ¬ r.toNat ≤ 127) : lowerRune r = r := by
  have h2 : ¬ ('A'.toNat ≤ r.toNat ∧ r.toNat ≤ 'Z'.toNat) := by
    rintro ⟨_, hz⟩
    have : 'Z'.toNat = 90 := by decide
    omega
  simp only [lowerRune, if_neg h2]

theorem upperRune_not_ascii {r : Char} (h : ¬ r.toNat ≤ 127) : upperRune r = r := by
  have h2 : ¬ ('a'.toNat ≤ r.toNat ∧ r.toNat ≤ 'z'.toNat) := by
    rintro ⟨_, hz⟩
    have : 'z'.toNat = 122 := by decide
    omega
  simp only [upperRune, if_neg h2]

/-- The two letter-case forms of a character upper-case to the same character. -/
theorem toUpperRune_case (up : Char → Char) (r : Char) :
    toUpperRune up (lowerRune r) = toUpperRune up (upperRune r) := by
  by_cases h : r.toNat ≤ 127
  · have htab := ascii_case_table r.toNat (by omega)
    rw [Char.ofNat_toNat] at htab
    rw [toUpperRune_ascii up htab.1, toUpperRune_ascii up htab.2.1]
    exact htab.2.2
  · rw [lowerRune_not_ascii h, upperRune_not_ascii h]

theorem toUpper_case (up : Char → Char) (c : Str) :
    ToUpper up (lowerCased c) = ToUpper up (upperCased c) := by
  simp only [ToUpper, lowerCased, upperCased, List.map_map]
  apply List.map_congr_left
  intro r _
  exact toUpperRune_case up r

theorem isWord_case {c : Str} (h : IsWord c) : IsWord (lowerCased c) ∧ IsWord (upperCased c) := by
  have key : ∀ r : Char, (r ≠ ' ' ∧ r ≠ quote ∧ r ≠ ',' ∧ r ≠ '=') →
      (lowerRune r ≠ ' ' ∧ lowerRune r ≠ quote ∧ lowerRune r ≠ ',' ∧ lowerRune r ≠ '=') ∧
      (upperRune r ≠ ' ' ∧ upperRune r ≠ quote ∧ upperRune r ≠ ',' ∧ upperRune r ≠ '=') := by
    intro r hr
    by_cases ha : r.toNat ≤ 127
    · have htab := ascii_sep_table r.toNat (by omega)
      rw [Char.ofNat_toNat] at htab
      have := htab (isSep_false.mpr hr)
      exact ⟨isSep_false.mp this.1, isSep_false.mp this.2⟩
    · rw [lowerRune_not_ascii ha, upperRune_not_ascii ha]
      exact ⟨hr, hr⟩
  constructor
  · constructor
    · intro e
      exact h.1 (List.map_eq_nil_iff.mp e)
    · intro d hd
      obtain ⟨r, hr, rfl⟩ := List.mem_map.mp hd
      exact (key r (h.2 r hr)).1
  · constructor
    · intro e
      exact h.1 (List.map_eq_nil_iff.mp e)
    · intro d hd
      obtain ⟨r, hr, rfl⟩ := List.mem_map.mp hd
      exact (key r (h.2 r hr)).2

theorem collectSelect_length (up : Char → Char) (tokens : List Str) :
    (collectSelect up tokens).2.length ≤ tokens.length := by
  induction tokens with
  | nil => simp [collectSelect]
  | cons tok rest ih =>
      unfold collectSelect
      by_cases h : ToUpper up tok ≠ "FROM".toList
      · simp only [if_pos h, List.length_cons]
        omega
      · simp only [if_neg h, List.length_cons, le_refl]

theorem collectFrom_length (up : Char → Char) (tokens : List Str) :
    (collectFrom up tokens).2.length ≤ tokens.length := by
  induction tokens with
  | nil => simp [collectFrom]
  | cons tok rest ih =>
      unfold collectFrom
      by_cases h : isKeyword up tok = false
      · simp only [if_pos h, List.length_cons]
        omega
      · simp only [if_neg h, List.length_cons, le_refl]

/-- With at least one unit of fuel per token the main loop of the parser never
runs out of fuel. -/
theorem parseLoop_fuel (up : Char → Char) (fuel : Nat) (tokens : List Str)
    (ast : List SQLNode) (h : tokens.length ≤ fuel) :
    parseLoop up fuel tokens ast ≠ .error .outOfFuel := by
  induction fuel generalizing tokens ast with
  | zero =>
      cases tokens with
      | nil => simp [parseLoop]
      | cons tok rest => simp at h
  | succ n ih =>
      cases tokens with
      | nil => simp [parseLoop]
      | cons tok rest =>
          have hrest : rest.length ≤ n := by
            simp only [List.length_cons] at h
            omega
          unfold parseLoop
          simp only
          split
          · exact ih _ _ (le_trans (collectSelect_length up rest) hrest)
          · split
            · exact ih _ _ (le_trans (collectFrom_length up rest) hrest)
            · split
              · split
                · rename_i l o r rest3
                  apply ih
                  simp only [List.length_cons] at hrest
                  omega
                · exact ih _ _ hrest
              · split
                · split
                  · rename_i v rest1
                    apply ih
                    simp only [List.length_cons] at hrest
                    omega
                  · intro e; cases e
                · intro e; cases e

/-- The parser never runs out of fuel. -/
theorem parseSQL_fuel (up : Char → Char) (sql : Str) :
    parseSQL up sql ≠ .error .outOfFuel :=
  parseLoop_fuel up _ _ _ (le_refl _)

/-! ## The claims on the parser -/

/-- C9. Parsing is insensitive to the letter case of the clause keywords and of
a column name and keeps the table name as written: for every column word `c`
and table word `t` (non-empty, without space, quote, comma or equals sign, `t`
no keyword), `select <c in lower case> from <t>` and
`SELECT <c in upper case> FROM <t>` parse to the same clause sequence; its last
node is the FROM node with value `t` verbatim, and unless `c` spells `FROM` it
is the SELECT node of the upper-cased column followed by that FROM node. -/
theorem parseSQL_case_insensitive (up : Char → Char) (c t : Str)
    (hc : IsWord c) (ht : IsWord t) (hkey : isKeyword up t = false) :
    parseSQL up ("select ".toList ++ lowerCased c ++ " from ".toList ++ t) =
      parseSQL up ("SELECT ".toList ++ upperCased c ++ " FROM ".toList ++ t) ∧
    ∃ ast, parseSQL up ("select ".toList ++ lowerCased c ++ " from ".toList ++ t) = .ok ast ∧
      ast.getLast? = some (valueNode "FROM".toList t) ∧
      (ToUpper up (upperCased c) ≠ "FROM".toList →
        ast = [valueNode "SELECT".toList (ToUpper up (upperCased c)),
          valueNode "FROM".toList t]) := by
  have e1 : "select ".toList ++ lowerCased c ++ " from ".toList ++ t =
      "select".toList ++ ' ' :: (lowerCased c ++ ' ' :: ("from".toList ++ ' ' :: t)) :=
    select_query_eq "select".toList "from".toList (lowerCased c) t
  have e2 : "SELECT ".toList ++ upperCased c ++ " FROM ".toList ++ t =
      "SELECT".toList ++ ' ' :: (upperCased c ++ ' ' :: ("FROM".toList ++ ' ' :: t)) :=
    select_query_eq "SELECT".toList "FROM".toList (upperCased c) t
  rw [e1, e2, ← toUpper_case up c]
  exact parseSQL_same_upper up "select".toList "SELECT".toList "from".toList "FROM".toList
    (lowerCased c) (upperCased c) t (by unfold IsWord; decide) (by unfold IsWord; decide)
    (by unfold IsWord; decide) (by unfold IsWord; decide) rfl rfl rfl rfl
    (isWord_case hc).1 (isWord_case hc).2 ht hkey (toUpper_case up c)

/-- C9, at the specification's example: `select name from users` and
`SELECT NAME FROM users` select the same column. -/
theorem parseSQL_case_insensitive_witness :
    parseSQL id "select name from users".toList =
      .ok [valueNode "SELECT".toList "NAME".toList, valueNode "FROM".toList "users".toList] ∧
    parseSQL id "SELECT NAME FROM users".toList =
      .ok [valueNode "SELECT".toList "NAME".toList, valueNode "FROM".toList "users".toList] ∧
    parseSQL id ("select ".toList ++ lowerCased "Name".toList ++ " from ".toList ++
        "users".toList) =
      parseSQL id ("SELECT ".toList ++ upperCased "Name".toList ++ " FROM ".toList ++
        "users".toList) :=
  ⟨rfl, rfl, (parseSQL_case_insensitive id "Name".toList "users".toList
    (by unfold IsWord; decide) (by unfold IsWord; decide) rfl).1⟩

/-! ## Lemmas on the main loop of the parser -/

/-- The main loop is the iteration of `parseStep`. -/
theorem parseLoop_succ (up : Char → Char) (fuel : Nat) (tok : Str) (rest : List Str)
    (ast : List SQLNode) :
    parseLoop up (fuel + 1) (tok :: rest) ast =
      match parseStep up tok rest ast with
      | .error e => .error e
      | .ok p => parseLoop up fuel p.1 p.2 := by
  simp only [parseLoop, parseStep]
  by_cases h1 : ToUpper up tok = "SELECT".toList
  · simp only [if_pos h1]
  · simp only [if_neg h1]
    by_cases h2 : ToUpper up tok = "FROM".toList
    · simp only [if_pos h2]
    · simp only [if_neg h2]
      by_cases h3 : ToUpper up tok = "WHERE".toList
      · simp only [if_pos h3]
        rcases rest with _ | ⟨a, _ | ⟨b, _ | ⟨c, r⟩⟩⟩ <;> rfl
      · simp only [if_neg h3]
        by_cases h4 : ToUpper up tok = "LIMIT".toList
        · simp only [if_pos h4]
          cases rest <;> rfl
        · simp only [if_neg h4]

theorem parseLoop_nil (up : Char → Char) (fuel : Nat) (ast : List SQLNode) :
    parseLoop up fuel [] ast = .ok ast := by
  cases fuel <;> rfl

/-- A successful iteration consumes at least the token under the cursor and
appends exactly one node. -/
theorem parseStep_ok {up : Char → Char} {tok : Str} {rest : List Str} {ast : List SQLNode}
    {p : List Str × List SQLNode} (h : parseStep up tok rest ast = .ok p) :
    p.1.length ≤ rest.length ∧ ∃ node, p.2 = ast ++ [node] := by
  unfold parseStep at h
  simp only at h
  split at h
  · cases h
    exact ⟨collectSelect_length up rest, _, rfl⟩
  · split at h
    · cases h
      exact ⟨collectFrom_length up rest, _, rfl⟩
    · split at h
      · split at h
        · cases h
          refine ⟨?_, _, rfl⟩
          simp only [List.length_cons]
          omega
        · cases h
          exact ⟨le_refl _, _, rfl⟩
      · split at h
        · split at h
          · cases h
            refine ⟨?_, _, rfl⟩
            simp only [List.length_cons]
            omega
          · cases h
        · cases h

/-- More fuel than there are tokens changes nothing. -/
theorem parseLoop_fuel_eq (up : Char → Char) (f1 f2 : Nat) (tokens : List Str)
    (ast : List SQLNode) (h1 : tokens.length ≤ f1) (h2 : tokens.length ≤ f2) :
    parseLoop up f1 tokens ast = parseLoop up f2 tokens ast := by
  induction f1 generalizing f2 tokens ast with
  | zero =>
      cases tokens with
      | nil => rw [parseLoop_nil, parseLoop_nil]
      | cons tok rest => simp at h1
  | succ n ih =>
      cases tokens with
      | nil => rw [parseLoop_nil, parseLoop_nil]
      | cons tok rest =>
          cases f2 with
          | zero => simp at h2
          | succ m =>
              rw [parseLoop_succ, parseLoop_succ]
              cases hs : parseStep up tok rest ast with
              | error e => rfl
              | ok p =>
                  simp only
                  have hp := (parseStep_ok hs).1
                  simp only [List.length_cons] at h1 h2
                  exact ih m p.1 p.2 (by omega) (by omega)

theorem parseTokens_cons (up : Char → Char) (tok : Str) (rest : List Str)
    (ast : List SQLNode) :
    parseTokens up (tok :: rest) ast =
      match parseStep up tok rest ast with
      | .error e => .error e
      | .ok p => parseTokens up p.1 p.2 := by
  unfold parseTokens
  rw [List.length_cons, parseLoop_succ]
  cases hs : parseStep up tok rest ast with
  | error e => rfl
  | ok p =>
      simp only
      exact parseLoop_fuel_eq up _ _ _ _ (parseStep_ok hs).1 (le_refl _)

theorem parseSQL_eq (up : Char → Char) (sql : Str) :
    parseSQL up sql = parseTokens up (tokenize sql) [] := rfl

/-- The loop started at a state returns what it returns from any state it
reaches. -/
theorem reaches_parseTokens {up : Char → Char} {tokens tokens2 : List Str}
    {ast ast2 : List SQLNode} (h : Reaches up tokens ast tokens2 ast2) :
    parseTokens up tokens ast = parseTokens up tokens2 ast2 := by
  induction h with
  | start => rfl
  | step _ hs ih =>
      rw [ih, parseTokens_cons, hs]

/-- The loop only appends to the clause sequence. -/
theorem parseLoop_prefix (up : Char → Char) (fuel : Nat) (tokens : List Str)
    (ast result : List SQLNode) (h : parseLoop up fuel tokens ast = .ok result) :
    ast <+: result := by
  induction fuel generalizing tokens ast with
  | zero =>
      cases tokens with
      | nil => rw [parseLoop_nil] at h; cases h; exact List.prefix_refl _
      | cons tok rest => simp [parseLoop] at h
  | succ n ih =>
      cases tokens with
      | nil => rw [parseLoop_nil] at h; cases h; exact List.prefix_refl _
      | cons tok rest =>
          rw [parseLoop_succ] at h
          cases hs : parseStep up tok rest ast with
          | error e => rw [hs] at h; cases h
          | ok p =>
              rw [hs] at h
              obtain ⟨node, hn⟩ := (parseStep_ok hs).2
              have := ih p.1 p.2 h
              rw [hn] at this
              exact List.IsPrefix.trans (List.prefix_append _ _) this

/-- The loop produces at most one node per token. -/
theorem parseLoop_length (up : Char → Char) (fuel : Nat) (tokens : List Str)
    (ast result : List SQLNode) (h : parseLoop up fuel tokens ast = .ok result) :
    result.length ≤ ast.length + tokens.length := by
  induction fuel generalizing tokens ast with
  | zero =>
      cases tokens with
      | nil => rw [parseLoop_nil] at h; cases h; simp
      | cons tok rest => simp [parseLoop] at h
  | succ n ih =>
      cases tokens with
      | nil => rw [parseLoop_nil] at h; cases h; simp
      | cons tok rest =>
          rw [parseLoop_succ] at h
          cases hs : parseStep up tok rest ast with
          | error e => rw [hs] at h; cases h
          | ok p =>
              rw [hs] at h
              obtain ⟨hlen, node, hn⟩ := parseStep_ok hs
              have := ih p.1 p.2 h
              rw [hn] at this
              simp only [List.length_append, List.length_singleton, List.length_cons,
                List.length_nil] at this ⊢
              omega

theorem parseStep_where_short (up : Char → Char) (w : Str) (rest : List Str)
    (ast : List SQLNode) (hw : ToUpper up w = "WHERE".toList) (hlen : rest.length < 3) :
    parseStep up w rest ast = .ok (rest, ast ++ [emptyWhere]) := by
  have h1 : ¬ ("WHERE".toList = "SELECT".toList) := by decide
  have h2 : ¬ ("WHERE".toList = "FROM".toList) := by decide
  simp only [parseStep, hw, if_neg h1, if_neg h2, if_true]
  rcases rest with _ | ⟨a, _ | ⟨b, _ | ⟨c, r⟩⟩⟩
  · rfl
  · rfl
  · rfl
  · simp only [List.length_cons] at hlen
    omega

theorem parseStep_where (up : Char → Char) (w left op right : Str) (rest : List Str)
    (ast : List SQLNode) (hw : ToUpper up w = "WHERE".toList) :
    parseStep up w (left :: op :: right :: rest) ast =
      .ok (rest, ast ++ [whereNode up left op right]) := by
  have h1 : ¬ ("WHERE".toList = "SELECT".toList) := by decide
  have h2 : ¬ ("WHERE".toList = "FROM".toList) := by decide
  simp only [parseStep, hw, if_neg h1, if_neg h2, if_true]
  rfl

theorem collectSelect_spec (up : Char → Char) (rest : List Str) :
    collectSelect up rest =
      (((rest.takeWhile (notFrom up)).filter (fun tok => decide (tok ≠ [',']))).map (ToUpper up),
        rest.dropWhile (notFrom up)) := by
  induction rest with
  | nil => rfl
  | cons tok rest ih =>
      unfold collectSelect
      by_cases h : ToUpper up tok ≠ "FROM".toList
      · have hn : notFrom up tok = true := by
          simp only [notFrom, decide_eq_true_eq]
          exact h
        rw [if_pos h, ih, List.takeWhile_cons_of_pos hn, List.dropWhile_cons_of_pos hn]
        by_cases hc : tok ≠ [',']
        · rw [if_pos hc, List.filter_cons_of_pos (by simpa using hc)]
          rfl
        · rw [if_neg hc, List.filter_cons_of_neg (by simpa using hc)]
          rfl
      · have hn : ¬ (notFrom up tok = true) := by
          simp only [notFrom, decide_eq_true_eq]
          exact h
        rw [if_neg h, List.takeWhile_cons_of_neg hn, List.dropWhile_cons_of_neg hn]
        rfl

theorem parseStep_select (up : Char → Char) (kw : Str) (rest : List Str)
    (ast : List SQLNode) (hkw : ToUpper up kw = "SELECT".toList) :
    parseStep up kw rest ast =
      .ok (rest.dropWhile (notFrom up),
        ast ++ [valueNode "SELECT".toList (selectValue up rest)]) := by
  simp only [parseStep, hkw, if_true, collectSelect_spec]
  rfl

theorem parseStep_other (up : Char → Char) (tok : Str) (rest : List Str)
    (ast : List SQLNode) (hkey : isKeyword up tok = false) :
    parseStep up tok rest ast = .error (.unexpectedToken (ToUpper up tok)) := by
  simp only [isKeyword, List.any_cons, List.any_nil, Bool.or_false, Bool.or_eq_false_iff,
    decide_eq_false_iff_not] at hkey
  simp only [parseStep, if_neg hkey.1, if_neg hkey.2.1, if_neg hkey.2.2.1, if_neg hkey.2.2.2]

/-- The node appended at a reached state is part of every result. -/
theorem reaches_result {up : Char → Char} {tokens tokens2 : List Str}
    {ast : List SQLNode} {node : SQLNode} {result : List SQLNode}
    (h : Reaches up tokens [] tokens2 (ast ++ [node]))
    (hres : parseTokens up tokens [] = .ok result) :
    result[ast.length]? = some node := by
  rw [reaches_parseTokens h] at hres
  obtain ⟨tail, rfl⟩ := parseLoop_prefix up _ _ _ _ hres
  rw [List.append_assoc, List.getElem?_append_right (le_refl _)]
  simp

theorem trim_no_quote (x : Str) (hx : quote ∉ x) : Trim x [quote] = x := by
  have key : ∀ y : Str, quote ∉ y →
      y.dropWhile (fun c => decide (c ∈ [quote])) = y := by
    intro y hy
    cases y with
    | nil => rfl
    | cons c cs =>
        have hc : c ≠ quote := fun e => hy (by rw [e]; exact List.mem_cons_self _ _)
        rw [List.dropWhile_cons_of_neg (by simpa using hc)]
  unfold Trim
  rw [key x hx, key x.reverse (by simpa using hx), List.reverse_reverse]

theorem trim_quoted (x : Str) (hx : quote ∉ x) : Trim (quote :: (x ++ [quote])) [quote] = x := by
  have key : ∀ y : Str, quote ∉ y →
      y.dropWhile (fun c => decide (c ∈ [quote])) = y := by
    intro y hy
    cases y with
    | nil => rfl
    | cons c cs =>
        have hc : c ≠ quote := fun e => hy (by rw [e]; exact List.mem_cons_self _ _)
        rw [List.dropWhile_cons_of_neg (by simpa using hc)]
  unfold Trim
  rw [List.dropWhile_cons_of_pos (by simp)]
  cases x with
  | nil => simp
  | cons c cs =>
      have hc : c ≠ quote := fun e => hx (by rw [e]; exact List.mem_cons_self _ _)
      rw [List.cons_append, List.dropWhile_cons_of_neg (by simpa using hc)]
      rw [← List.cons_append, List.reverse_append, List.reverse_singleton, List.singleton_append,
        List.dropWhile_cons_of_pos (by simp),
        key _ (by rw [List.mem_reverse]; exact hx), List.reverse_reverse]

/-! ## More claims on the parser -/

/-- C12, as stated, fails: in `SELECT * FROM t WHERE a =` the WHERE keyword is
followed by two tokens; the WHERE node with empty fields is appended, and then
the token `a` is read as the start of a clause and `parseSQL` fails. -/
theorem where_short_counterexample :
    tokenize "SELECT * FROM t WHERE a =".toList =
      ["SELECT".toList, "*".toList, "FROM".toList, "t".toList, "WHERE".toList, "a".toList,
        "=".toList] ∧
    parseSQL id "SELECT * FROM t WHERE a =".toList = .error (.unexpectedToken "A".toList) :=
  ⟨rfl, rfl⟩

/-- C12 (amended). When the main loop of `parseSQL` is at a WHERE keyword
followed by fewer than three tokens (zero, one or two), the WHERE case raises
no error: it appends a WHERE node whose left column, operator and right literal
are empty and moves the cursor past the keyword only.  The parse then returns
the clause sequence when no token is left, and fails with the unexpected-token
error when the token after the keyword is not a keyword. -/
theorem where_short_parse (up : Char → Char) (tokens : List Str) (w : Str)
    (rest : List Str) (ast : List SQLNode)
    (hreach : Reaches up tokens [] (w :: rest) ast)
    (hw : ToUpper up w = "WHERE".toList) (hlen : rest.length < 3) :
    Reaches up tokens [] rest (ast ++ [emptyWhere]) ∧
    (rest = [] → parseTokens up tokens [] = .ok (ast ++ [emptyWhere])) ∧
    (∀ t rest2, rest = t :: rest2 → isKeyword up t = false →
      parseTokens up tokens [] = .error (.unexpectedToken (ToUpper up t))) := by
  have hnext : Reaches up tokens [] rest (ast ++ [emptyWhere]) :=
    Reaches.step hreach (parseStep_where_short up w rest ast hw hlen)
  refine ⟨hnext, ?_, ?_⟩
  · intro hnil
    subst hnil
    rw [reaches_parseTokens hnext]
    exact parseLoop_nil up _ _
  · intro t rest2 hrest hkey
    subst hrest
    rw [reaches_parseTokens hnext, parseTokens_cons, parseStep_other up t rest2 _ hkey]

/-- C12 (amended), at `SELECT * FROM t WHERE`, which parses, and at
`SELECT * FROM t WHERE a =`, which does not. -/
theorem where_short_parse_witness :
    parseSQL id "SELECT * FROM t WHERE".toList =
      .ok ([valueNode "SELECT".toList "*".toList, valueNode "FROM".toList "t".toList] ++
        [emptyWhere]) ∧
    parseSQL id "SELECT * FROM t WHERE a =".toList = .error (.unexpectedToken "A".toList) :=
  ⟨(where_short_parse id (tokenize "SELECT * FROM t WHERE".toList) "WHERE".toList []
      [valueNode "SELECT".toList "*".toList, valueNode "FROM".toList "t".toList]
      (Reaches.step (Reaches.step Reaches.start rfl) rfl) rfl (by decide)).2.1 rfl,
   (where_short_parse id (tokenize "SELECT * FROM t WHERE a =".toList) "WHERE".toList
      ["a".toList, "=".toList]
      [valueNode "SELECT".toList "*".toList, valueNode "FROM".toList "t".toList]
      (Reaches.step (Reaches.step Reaches.start rfl) rfl) rfl (by decide)).2.2
      "a".toList ["=".toList] rfl rfl⟩

/-- C13, as stated, fails: the query `foo bar` fails with the unexpected-token
error carrying `FOO`, the upper-cased token, not the text `foo` of the query. -/
theorem unexpected_token_counterexample :
    tokenize "foo bar".toList = ["foo".toList, "bar".toList] ∧
    isKeyword id "foo".toList = false ∧
    parseSQL id "foo bar".toList = .error (.unexpectedToken "FOO".toList) ∧
    parseSQL id "foo bar".toList ≠ .error (.unexpectedToken "foo".toList) :=
  ⟨rfl, rfl, rfl, by intro h; cases h⟩

/-- C13 (amended). When the main loop of `parseSQL` is at a token that is not,
case-insensitively, one of SELECT, FROM, WHERE, LIMIT, the parse fails with the
unexpected-token error carrying that token upper-cased, and returns no clause
sequence; in particular every query whose first token is not one of the four
keywords fails this way. -/
theorem unexpected_token_error (up : Char → Char) :
    (∀ (tokens : List Str) (tok : Str) (rest : List Str) (ast : List SQLNode),
      Reaches up tokens [] (tok :: rest) ast → isKeyword up tok = false →
      parseTokens up tokens [] = .error (.unexpectedToken (ToUpper up tok))) ∧
    (∀ (sql : Str) (tok : Str) (rest : List Str), tokenize sql = tok :: rest →
      isKeyword up tok = false →
      parseSQL up sql = .error (.unexpectedToken (ToUpper up tok))) := by
  constructor
  · intro tokens tok rest ast hreach hkey
    rw [reaches_parseTokens hreach, parseTokens_cons, parseStep_other up tok rest ast hkey]
  · intro sql tok rest htok hkey
    rw [parseSQL_eq, htok, parseTokens_cons, parseStep_other up tok rest [] hkey]

/-- C13 (amended), at the queries `foo bar` and
`SELECT * FROM t WHERE a = b order`. -/
theorem unexpected_token_error_witness :
    parseSQL id "foo bar".toList = .error (.unexpectedToken "FOO".toList) ∧
    parseTokens id (tokenize "SELECT * FROM t WHERE a = b order".toList) [] =
      .error (.unexpectedToken "ORDER".toList) :=
  ⟨(unexpected_token_error id).2 "foo bar".toList "foo".toList ["bar".toList] rfl rfl,
   (unexpected_token_error id).1 (tokenize "SELECT * FROM t WHERE a = b order".toList)
      "order".toList []
      [valueNode "SELECT".toList "*".toList, valueNode "FROM".toList "t".toList,
        whereNode id "a".toList "=".toList "b".toList]
      (Reaches.step (Reaches.step (Reaches.step Reaches.start rfl) rfl) rfl) rfl⟩

/-- C15. When the main loop of `parseSQL` is at a SELECT keyword, it appends the
SELECT node whose value is made of the tokens between the keyword and the next
token that is case-insensitively FROM (or the end of the tokens), every `,`
token dropped, every other token upper-cased, joined with a comma and a space,
and goes on at that FROM token; the node is part of every result.  The value is
`*` when the column list is the single token `*`, and tokens such as WHERE or
LIMIT before FROM are collected as column names. -/
theorem select_node_value (up : Char → Char) (tokens : List Str) (kw : Str)
    (rest : List Str) (ast : List SQLNode)
    (hreach : Reaches up tokens [] (kw :: rest) ast)
    (hkw : ToUpper up kw = "SELECT".toList) :
    Reaches up tokens [] (rest.dropWhile (notFrom up))
      (ast ++ [valueNode "SELECT".toList (selectValue up rest)]) ∧
    (∀ result, parseTokens up tokens [] = .ok result →
      result[ast.length]? = some (valueNode "SELECT".toList (selectValue up rest))) ∧
    (rest.takeWhile (notFrom up) = ["*".toList] → selectValue up rest = "*".toList) ∧
    parseSQL up "SELECT a, where,limit FROM t".toList =
      .ok [valueNode "SELECT".toList "A, WHERE, LIMIT".toList,
        valueNode "FROM".toList "t".toList] := by
  have hnext := Reaches.step hreach (parseStep_select up kw rest ast hkw)
  refine ⟨hnext, ?_, ?_, rfl⟩
  · intro result hres
    exact reaches_result hnext hres
  · intro hstar
    unfold selectValue columnTokens
    rw [hstar]
    rfl

/-- C15, at the queries `select name, age from users` and `SELECT * FROM t`. -/
theorem select_node_value_witness :
    (∀ result, parseTokens id (tokenize "select name, age from users".toList) [] = .ok result →
      result[0]? = some (valueNode "SELECT".toList "NAME, AGE".toList)) ∧
    selectValue id ["*".toList, "FROM".toList, "t".toList] = "*".toList :=
  ⟨(select_node_value id (tokenize "select name, age from users".toList) "select".toList
      ["name".toList, ",".toList, "age".toList, "from".toList, "users".toList] []
      Reaches.start rfl).2.1,
   (select_node_value id (tokenize "SELECT * FROM t".toList) "SELECT".toList
      ["*".toList, "FROM".toList, "t".toList] [] Reaches.start rfl).2.2.1 rfl⟩

/-- C16. When the main loop of `parseSQL` is at a WHERE keyword followed by at
least three tokens `l`, `o`, `r`, it appends the WHERE node with left column
`l` upper-cased, operator `o` verbatim, whatever token it is, and right literal
`r` with the single quotes at its ends stripped, and goes on at the token after
`r`; the node is part of every result.  For a quote-free `x` the token `'x'`
gives the right literal `x`, and a quote-free token is kept unchanged. -/
theorem where_node_fields (up : Char → Char) (tokens : List Str) (w l o r : Str)
    (rest : List Str) (ast : List SQLNode)
    (hreach : Reaches up tokens [] (w :: l :: o :: r :: rest) ast)
    (hw : ToUpper up w = "WHERE".toList) :
    Reaches up tokens [] rest
      (ast ++ [{ Type_ := "WHERE".toList, Value := [], Left := ToUpper up l, Operator := o,
                 Right := Trim r [quote] }]) ∧
    (∀ result, parseTokens up tokens [] = .ok result →
      result[ast.length]? =
        some { Type_ := "WHERE".toList, Value := [], Left := ToUpper up l, Operator := o,
               Right := Trim r [quote] }) ∧
    (∀ x : Str, quote ∉ x → Trim (quote :: (x ++ [quote])) [quote] = x) ∧
    (∀ x : Str, quote ∉ x → Trim x [quote] = x) := by
  have hnext := Reaches.step hreach (parseStep_where up w l o r rest ast hw)
  refine ⟨hnext, ?_, trim_quoted, trim_no_quote⟩
  intro result hres
  exact reaches_result hnext hres

/-- C16, at the query `select * from users where age > '25' limit 1`, whose
WHERE node has the operator `>`. -/
theorem where_node_fields_witness :
    Reaches id (tokenize "select * from users where age > '25' limit 1".toList) []
      ["limit".toList, "1".toList]
      ([valueNode "SELECT".toList "*".toList, valueNode "FROM".toList "users".toList] ++
        [{ Type_ := "WHERE".toList, Value := [], Left := "AGE".toList, Operator := ">".toList,
           Right := "25".toList }]) :=
  (where_node_fields id (tokenize "select * from users where age > '25' limit 1".toList)
    "where".toList "age".toList ">".toList "'25'".toList ["limit".toList, "1".toList]
    [valueNode "SELECT".toList "*".toList, valueNode "FROM".toList "users".toList]
    (Reaches.step (Reaches.step Reaches.start rfl) rfl) rfl).1

/-- C19. `parseSQL` terminates: every iteration of its main loop that does not
return an error leaves strictly fewer tokens after the cursor and appends one
node, also the WHERE case that consumes only the keyword when fewer than three
tokens follow; hence the loop bounded by the number of tokens never exhausts
its bound and returns what it returns with any larger bound, and a parse that
succeeds produces at most as many clause nodes as there are tokens. -/
theorem parseSQL_terminates (up : Char → Char) :
    (∀ (tok : Str) (rest : List Str) (ast : List SQLNode) (p : List Str × List SQLNode),
      parseStep up tok rest ast = .ok p →
      p.1.length < (tok :: rest).length ∧ p.2.length = ast.length + 1) ∧
    (∀ (w : Str) (rest : List Str) (ast : List SQLNode), ToUpper up w = "WHERE".toList →
      rest.length < 3 → parseStep up w rest ast = .ok (rest, ast ++ [emptyWhere])) ∧
    (∀ (fuel : Nat) (tokens : List Str) (ast : List SQLNode), tokens.length ≤ fuel →
      parseLoop up fuel tokens ast = parseTokens up tokens ast ∧
      parseLoop up fuel tokens ast ≠ .error .outOfFuel) ∧
    (∀ (sql : Str) (ast : List SQLNode), parseSQL up sql = .ok ast →
      ast.length ≤ (tokenize sql).length) := by
  refine ⟨?_, ?_, ?_, ?_⟩
  · intro tok rest ast p hp
    obtain ⟨hlen, node, hn⟩ := parseStep_ok hp
    constructor
    · simp only [List.length_cons]
      omega
    · rw [hn]
      simp
  · intro w rest ast hw hlen
    exact parseStep_where_short up w rest ast hw hlen
  · intro fuel tokens ast hfuel
    exact ⟨parseLoop_fuel_eq up _ _ _ _ hfuel (le_refl _), parseLoop_fuel up _ _ _ hfuel⟩
  · intro sql ast h
    have := parseLoop_length up _ _ _ _ h
    simpa using this

/-- C19, at the query `select name from users where`: five tokens, three
nodes. -/
theorem parseSQL_terminates_witness :
    (tokenize "select name from users where".toList).length = 5 ∧
    [valueNode "SELECT".toList "NAME".toList, valueNode "FROM".toList "users".toList,
      emptyWhere].length ≤ (tokenize "select name from users where".toList).length :=
  ⟨rfl, (parseSQL_terminates id).2.2.2 "select name from users where".toList
    [valueNode "SELECT".toList "NAME".toList, valueNode "FROM".toList "users".toList,
      emptyWhere] rfl⟩

/-! ## More lemmas and claims on the tokenizer -/

theorem flatten_flush (cur : Str) : (flush [] cur).flatten = cur := by
  unfold flush
  by_cases hl : cur.length > 0
  · simp [hl]
  · have : cur = [] := by
      cases cur with
      | nil => rfl
      | cons a b => simp at hl
    subst this
    simp

/-- The tokens of the scan, put end to end, are the token under construction
followed by the text without its unquoted spaces. -/
theorem tokenizeLoop_flatten (s : Str) (cur : Str) (q : Bool) :
    (tokenizeLoop s [] cur q).flatten = cur ++ dropUnquotedSpaces q s := by
  induction s generalizing cur q with
  | nil =>
      simp only [tokenizeLoop, dropUnquotedSpaces, List.append_nil]
      exact flatten_flush cur
  | cons c rest ih =>
      rw [tokenizeLoop_cons]
      by_cases h1 : c = quote
      · simp only [if_pos h1, dropUnquotedSpaces]
        rw [ih]
        simp
      · simp only [if_neg h1, dropUnquotedSpaces]
        by_cases h2 : c = ' ' ∧ q = false
        · obtain ⟨rfl, rfl⟩ := h2
          simp only [and_self, if_true, List.flatten_append, flatten_flush, ih, List.nil_append]
        · simp only [if_neg h2]
          by_cases h3 : c = ',' ∧ q = false
          · obtain ⟨rfl, rfl⟩ := h3
            simp only [and_self, if_true, List.flatten_append, flatten_flush, List.flatten_cons,
              ih, List.nil_append]
            simp
          · simp only [if_neg h3]
            by_cases h4 : c = '=' ∧ q = false
            · obtain ⟨rfl, rfl⟩ := h4
              simp only [and_self, if_true, List.flatten_append, flatten_flush,
                List.flatten_cons, ih, List.nil_append]
              simp
            · simp only [if_neg h4]
              rw [ih]
              simp

theorem tokenizeLoop_spaces (n : Nat) (rest : Str) (tokens : List Str) (cur : Str) :
    tokenizeLoop (List.replicate (n + 1) ' ' ++ rest) tokens cur false =
      tokenizeLoop (' ' :: rest) tokens cur false := by
  induction n generalizing tokens cur with
  | zero => rfl
  | succ m ih =>
      rw [List.replicate_succ, List.cons_append, tokenizeLoop_space, ih, tokenizeLoop_space,
        tokenizeLoop_space]
      have : flush (flush tokens cur) [] = flush tokens cur := by
        simp [flush]
      rw [this]

/-- C11, as stated, fails: a tab or a newline between two words does not end a
token; `select<tab>name` is one token, which holds the tab, while
`select name` gives two tokens. -/
theorem whitespace_counterexample :
    tokenize ("select".toList ++ [tab] ++ "name".toList) =
      ["select".toList ++ [tab] ++ "name".toList] ∧
    tokenize ("select".toList ++ [newline] ++ "name".toList) =
      ["select".toList ++ [newline] ++ "name".toList] ∧
    tokenize "select name".toList = ["select".toList, "name".toList] ∧
    tokenize ("select".toList ++ [tab] ++ "name".toList) ≠ tokenize "select name".toList ∧
    tab ∈ unquoted false ("select".toList ++ [tab] ++ "name".toList) :=
  ⟨rfl, rfl, rfl, by decide, by decide⟩

/-- C11 (amended). For every text, a space outside quotes terminates the current
token, which is emitted when it is non-empty, and is dropped, so that no token
contains a space outside its quoted regions; and a run of spaces acts as a
single space, so that words separated by several spaces give the same tokens as
words separated by single spaces. -/
theorem space_terminates_token :
    (∀ (rest : Str) (tokens : List Str) (cur : Str),
      tokenizeLoop (' ' :: rest) tokens cur false =
        tokenizeLoop rest (flush tokens cur) [] false) ∧
    (∀ (sql : Str), ∀ tok ∈ tokenize sql, ' ' ∉ unquoted false tok) ∧
    (∀ (n : Nat) (rest : Str) (tokens : List Str) (cur : Str),
      tokenizeLoop (List.replicate (n + 1) ' ' ++ rest) tokens cur false =
        tokenizeLoop (' ' :: rest) tokens cur false) ∧
    tokenize "select   name  from users".toList = tokenize "select name from users".toList := by
  refine ⟨tokenizeLoop_space, ?_, tokenizeLoop_spaces, by decide⟩
  intro sql tok ht hmem
  obtain ⟨_, h | h | h⟩ := tokenizeLoop_good sql [] false rfl clean_nil tok ht
  · rw [h] at hmem
    revert hmem
    decide
  · rw [h] at hmem
    revert hmem
    decide
  · exact (h ' ' hmem).2.2 rfl

/-- C11 (amended), at the text `a  'b c'`: the token `'b c'` keeps its quoted
space and has no space outside quotes. -/
theorem space_terminates_token_witness :
    "'b c'".toList ∈ tokenize "a  'b c'".toList ∧
    ' ' ∉ unquoted false "'b c'".toList :=
  ⟨by decide, space_terminates_token.2.1 "a  'b c'".toList "'b c'".toList (by decide)⟩

/-- C18. For every text, the tokens of `tokenize` put end to end, in order, are
the text without its spaces outside single-quoted regions: no other character
is lost, none is added, the order is kept and the quote characters stay in the
tokens. -/
theorem tokenize_concat (sql : Str) :
    (tokenize sql).flatten = dropUnquotedSpaces false sql ∧
    (tokenize "x = 'p, q=r' , y".toList).flatten = "x='p, q=r',y".toList := by
  refine ⟨?_, rfl⟩
  have := tokenizeLoop_flatten sql [] false
  simpa [tokenize] using this

/-- C18, at the text `select 'a b' from t`. -/
theorem tokenize_concat_witness :
    (tokenize "select 'a b' from t".toList).flatten = "select'a b'fromt".toList :=
  (tokenize_concat "select 'a b' from t".toList).1

/-! ## Lemmas on duplicate clauses -/

theorem keepLast_mem {ast : List SQLNode} {n : SQLNode} (h : n ∈ keepLast ast) : n ∈ ast := by
  induction ast with
  | nil => simp [keepLast] at h
  | cons node rest ih =>
      unfold keepLast at h
      by_cases hk : isClauseType node.Type_ = true ∧ lastOfType node.Type_ rest = none
      · rw [if_pos hk] at h
        rcases List.mem_cons.mp h with rfl | h
        · exact List.mem_cons_self _ _
        · exact List.mem_cons_of_mem _ (ih h)
      · rw [if_neg hk] at h
        exact List.mem_cons_of_mem _ (ih h)

theorem keepLast_clauseType {ast : List SQLNode} {n : SQLNode} (h : n ∈ keepLast ast) :
    isClauseType n.Type_ = true := by
  induction ast with
  | nil => simp [keepLast] at h
  | cons node rest ih =>
      unfold keepLast at h
      by_cases hk : isClauseType node.Type_ = true ∧ lastOfType node.Type_ rest = none
      · rw [if_pos hk] at h
        rcases List.mem_cons.mp h with rfl | h
        · exact hk.1
        · exact ih h
      · rw [if_neg hk] at h
        exact ih h

/-- The reduced sequence has the same last node of each clause type. -/
theorem lastOfType_keepLast {ty : Str} (hty : isClauseType ty = true) (ast : List SQLNode) :
    lastOfType ty (keepLast ast) = lastOfType ty ast := by
  induction ast with
  | nil => rfl
  | cons node rest ih =>
      unfold keepLast
      by_cases hk : isClauseType node.Type_ = true ∧ lastOfType node.Type_ rest = none
      · rw [if_pos hk]
        simp only [lastOfType, ih]
      · rw [if_neg hk, ih]
        simp only [lastOfType]
        cases hl : lastOfType ty rest with
        | some n => rfl
        | none =>
            by_cases hn : node.Type_ = ty
            · exfalso
              apply hk
              rw [hn]
              exact ⟨hty, hl⟩
            · simp only [if_neg hn]

/-- The reduced sequence holds, of each clause type, the last node of that type
and no other. -/
theorem keepLast_filter {ty : Str} (hty : isClauseType ty = true) (ast : List SQLNode) :
    (keepLast ast).filter (fun n => decide (n.Type_ = ty)) = (lastOfType ty ast).toList := by
  induction ast with
  | nil => rfl
  | cons node rest ih =>
      unfold keepLast
      by_cases hk : isClauseType node.Type_ = true ∧ lastOfType node.Type_ rest = none
      · rw [if_pos hk]
        by_cases hn : node.Type_ = ty
        · rw [List.filter_cons_of_pos (by simpa using hn), ih]
          have hl : lastOfType ty rest = none := by rw [← hn]; exact hk.2
          simp only [lastOfType, hl, if_pos hn]
          rfl
        · rw [List.filter_cons_of_neg (by simpa using hn), ih]
          simp only [lastOfType, if_neg hn]
          cases lastOfType ty rest <;> rfl
      · rw [if_neg hk, ih]
        simp only [lastOfType]
        cases hl : lastOfType ty rest with
        | some n => rfl
        | none =>
            by_cases hn : node.Type_ = ty
            · exfalso
              apply hk
              rw [hn]
              exact ⟨hty, hl⟩
            · simp only [if_neg hn]

/-- Two successful scans of sequences with the same last clauses end in the
same state. -/
theorem scanClauses_same {up : Char → Char} {readAll : Str → Option (List (List Str))}
    {ast ast2 : List SQLNode} {st st2 : ScanState}
    (h : scanClauses up readAll ScanState.init ast = .ok st)
    (h2 : scanClauses up readAll ScanState.init ast2 = .ok st2)
    (hlast : ∀ ty, isClauseType ty = true → lastOfType ty ast2 = lastOfType ty ast) :
    st2 = st := by
  obtain ⟨a1, a2, _, a4, a5, a6, a7⟩ := scanClauses_init h
  obtain ⟨b1, b2, _, b4, b5, b6, b7⟩ := scanClauses_init h2
  have hS := hlast "SELECT".toList (by decide)
  have hF := hlast "FROM".toList (by decide)
  have hW := hlast "WHERE".toList (by decide)
  have hL := hlast "LIMIT".toList (by decide)
  have e1 : st2.whereClause = st.whereClause := by rw [a1, b1, hW]
  have e2 : st2.selectedColumns = st.selectedColumns := by
    rw [a2, b2]
    unfold effectiveSelect
    rw [hS]
  have e3 : st2.limit = st.limit := by
    cases hl : lastOfType "LIMIT".toList ast with
    | none => rw [a4 hl, b4 (by rw [hL, hl])]
    | some n =>
        obtain ⟨k, hk, _, hk2⟩ := a5 n hl
        obtain ⟨k2, hk3, _, hk4⟩ := b5 n (by rw [hL, hl])
        rw [hk] at hk3
        cases hk3
        rw [hk2, hk4]
  have e4 : st2.table = st.table := by
    cases hf : lastOfType "FROM".toList ast with
    | none => rw [a6 hf, b6 (by rw [hF, hf])]
    | some n =>
        obtain ⟨t, ht, ht2⟩ := a7 n hf
        obtain ⟨t2, ht3, ht4⟩ := b7 n (by rw [hF, hf])
        rw [ht] at ht3
        cases ht3
        rw [ht2, ht4]
  cases st
  cases st2
  simp only at e1 e2 e3 e4
  rw [e1, e2, e3, e4]

/-! ## Lemmas on index bounds -/

theorem headerIndex_lt {col : Str} {headers : List Str} {i : Nat}
    (h : headerIndex col headers = some i) : i < headers.length := by
  have := (headerIndex_some h).2
  by_contra hn
  rw [List.getElem?_eq_none (not_lt.mp hn)] at this
  cases this

theorem evaluateWhereClause_in_bounds {w : SQLNode} {headers row : List Str}
    (hrow : row.length = headers.length) :
    evaluateWhereClause w headers row ≠ .error .indexOutOfRange := by
  unfold evaluateWhereClause
  by_cases hop : w.Operator ≠ "=".toList
  · rw [if_pos hop]
    intro e
    cases e
  · rw [if_neg hop]
    cases hi : headerIndex w.Left headers with
    | none =>
        simp only
        intro e
        cases e
    | some i =>
        have hlt : i < row.length := by rw [hrow]; exact headerIndex_lt hi
        simp only [List.getElem?_eq_getElem hlt]
        intro e
        cases e

theorem rowLoop_in_bounds {headers : List Str} {w : Option SQLNode} {limit : Int}
    {idxs : List Nat} (hidx : ∀ i ∈ idxs, i < headers.length)
    (rows acc : List (List Str)) (hrows : ∀ row ∈ rows, row.length = headers.length) :
    rowLoop headers w limit idxs rows acc ≠ .error .indexOutOfRange := by
  induction rows generalizing acc with
  | nil =>
      simp only [rowLoop]
      intro e
      cases e
  | cons row rest ih =>
      have hrow : row.length = headers.length := hrows row (List.mem_cons_self _ _)
      have hrest : ∀ r ∈ rest, r.length = headers.length :=
        fun r hr => hrows r (List.mem_cons_of_mem _ hr)
      obtain ⟨cells, hcells⟩ := @selectCells_of_lt row idxs
        (fun i hi => by rw [hrow]; exact hidx i hi)
      have key : ∀ b : Bool,
          ((match (Except.ok b : Except QueryError Bool) with
            | .error e => .error e
            | .ok false => rowLoop headers w limit idxs rest acc
            | .ok true =>
                if limit ≠ -1 ∧ (acc.length : Int) - 1 ≥ limit then .ok acc
                else
                  match selectCells row idxs with
                  | none => .error .indexOutOfRange
                  | some newRow => rowLoop headers w limit idxs rest (acc ++ [newRow])) :
              Except QueryError (List (List Str))) ≠ .error .indexOutOfRange := by
        intro b
        cases b with
        | false => exact ih acc hrest
        | true =>
            simp only
            by_cases hl : limit ≠ -1 ∧ (acc.length : Int) - 1 ≥ limit
            · rw [if_pos hl]
              intro e
              cases e
            · rw [if_neg hl, hcells]
              exact ih _ hrest
      unfold rowLoop
      cases w with
      | none => exact key true
      | some node =>
          simp only
          cases he : evaluateWhereClause node headers row with
          | error e =>
              simp only
              intro e2
              cases e2
              exact evaluateWhereClause_in_bounds hrow he
          | ok b => exact key b

theorem runQuery_in_bounds {st : ScanState}
    (hinv : ∀ t, st.table = some t → ∀ row ∈ t.Rows, row.length = t.Headers.length) :
    runQuery st ≠ .error .indexOutOfRange := by
  unfold runQuery
  cases ht : st.table with
  | none =>
      simp only
      intro e
      cases e
  | some t =>
      simp only
      cases hc : columnIndices t.Headers st.selectedColumns with
      | error e =>
          simp only
          intro e2
          cases e2
          cases hs : st.selectedColumns with
          | none => rw [hs] at hc; simp [columnIndices] at hc
          | some cols =>
              rw [hs] at hc
              simp only [columnIndices] at hc
              have : ∀ cols : List Str,
                  resolveColumns t.Headers cols ≠ .error .indexOutOfRange := by
                intro cols
                induction cols with
                | nil => simp [resolveColumns]
                | cons c rest ih =>
                    unfold resolveColumns
                    cases headerIndex c t.Headers with
                    | none => simp
                    | some i =>
                        simp only
                        cases hr : resolveColumns t.Headers rest with
                        | error e =>
                            simp only
                            intro e3
                            cases e3
                            exact ih hr
                        | ok is => simp
              exact this cols hc
      | ok idxs =>
          simp only [columnIndices_header hc]
          exact rowLoop_in_bounds (selectCells_lt (columnIndices_header hc)) _ _ (hinv t ht)

theorem scanClauses_error_kind {up : Char → Char} {readAll : Str → Option (List (List Str))}
    (ast : List SQLNode) (st : ScanState) :
    scanClauses up readAll st ast ≠ .error .indexOutOfRange := by
  induction ast generalizing st with
  | nil =>
      simp only [scanClauses]
      intro e
      cases e
  | cons node rest ih =>
      unfold scanClauses
      cases hn : scanNode up readAll st node with
      | ok st1 => exact ih st1
      | error e =>
          simp only
          intro e2
          cases e2
          unfold scanNode at hn
          split at hn
          · split at hn <;> cases hn
          · split at hn
            · split at hn <;> cases hn
            · split at hn
              · cases hn
              · split at hn
                · split at hn
                  · cases hn
                  · split at hn <;> cases hn
                · cases hn

/-! ## More claims on the executor -/

/-- C14. Last one wins: whenever `executeQuery` succeeds on a clause sequence,
it returns the same result on the sequence reduced to the last SELECT, the last
FROM, the last WHERE and the last LIMIT clause (the reduced sequence holds, of
each clause type, that last node and nothing else); and the WHERE predicate
applied to the rows is that of the last WHERE clause of the sequence, whatever
clauses follow it. -/
theorem last_clause_wins (up : Char → Char) (readAll : Str → Option (List (List Str)))
    (ast : List SQLNode) (result : List (List Str))
    (h : executeQuery up readAll ast = .ok result) :
    executeQuery up readAll (keepLast ast) = .ok result ∧
    (∀ ty, isClauseType ty = true →
      (keepLast ast).filter (fun n => decide (n.Type_ = ty)) = (lastOfType ty ast).toList) ∧
    (∀ n ∈ keepLast ast, isClauseType n.Type_ = true) ∧
    ∃ t, result = specResult t (effectiveSelect ast) (lastOfType "WHERE".toList ast)
      (effectiveLimit ast) := by
  refine ⟨?_, fun ty hty => keepLast_filter hty ast, fun n hn => keepLast_clauseType hn, ?_⟩
  · unfold executeQuery at h
    cases hs : scanClauses up readAll ScanState.init ast with
    | error e => simp only [hs] at h; cases h
    | ok st =>
        simp only [hs] at h
        have hvalid : ClausesValid up readAll (keepLast ast) :=
          fun node hn => scanClauses_valid hs node (keepLast_mem hn)
        obtain ⟨st2, hs2⟩ := scanClauses_ok_of_valid ScanState.init hvalid
        have := scanClauses_same hs hs2 (fun ty hty => lastOfType_keepLast hty ast)
        rw [executeQuery_of_scan hs2, this]
        exact h
  · obtain ⟨_, t, _, _, _, _, hres⟩ := executeQuery_ok_spec h
    exact ⟨t, hres⟩

/-- C14, at the clause sequence of
`SELECT NAME FROM empty LIMIT 5 SELECT * FROM users LIMIT 1 WHERE AGE = 30 WHERE AGE = 25`. -/
theorem last_clause_wins_witness :
    keepLast
        [mkNode "SELECT" "NAME" "" "" "", mkNode "FROM" "empty" "" "" "",
          mkNode "LIMIT" "5" "" "" "", mkNode "SELECT" "*" "" "" "",
          mkNode "FROM" "users" "" "" "", mkNode "LIMIT" "1" "" "" "",
          mkNode "WHERE" "" "AGE" "=" "30", mkNode "WHERE" "" "AGE" "=" "25"] =
      [mkNode "SELECT" "*" "" "" "", mkNode "FROM" "users" "" "" "",
        mkNode "LIMIT" "1" "" "" "", mkNode "WHERE" "" "AGE" "=" "25"] ∧
    executeQuery id sampleFiles
        (keepLast
          [mkNode "SELECT" "NAME" "" "" "", mkNode "FROM" "empty" "" "" "",
            mkNode "LIMIT" "5" "" "" "", mkNode "SELECT" "*" "" "" "",
            mkNode "FROM" "users" "" "" "", mkNode "LIMIT" "1" "" "" "",
            mkNode "WHERE" "" "AGE" "=" "30", mkNode "WHERE" "" "AGE" "=" "25"]) =
      .ok [["NAME".toList, "AGE".toList], ["Bob".toList, "25".toList]] :=
  ⟨by decide, (last_clause_wins id sampleFiles
      [mkNode "SELECT" "NAME" "" "" "", mkNode "FROM" "empty" "" "" "",
        mkNode "LIMIT" "5" "" "" "", mkNode "SELECT" "*" "" "" "",
        mkNode "FROM" "users" "" "" "", mkNode "LIMIT" "1" "" "" "",
        mkNode "WHERE" "" "AGE" "=" "30", mkNode "WHERE" "" "AGE" "=" "25"]
      [["NAME".toList, "AGE".toList], ["Bob".toList, "25".toList]] rfl).1⟩

/-- C17. When the table the query loads has as many cells in each row as it has
headers, `executeQuery` never indexes a row or the header list out of range: it
returns a result set or one of its errors, whatever the clause sequence. -/
theorem executeQuery_in_bounds (up : Char → Char) (readAll : Str → Option (List (List Str)))
    (ast : List SQLNode)
    (hinv : ∀ f t, lastOfType "FROM".toList ast = some f →
      loadCSVTable up readAll (f.Value ++ ".csv".toList) = .ok t →
      ∀ row ∈ t.Rows, row.length = t.Headers.length) :
    executeQuery up readAll ast ≠ .error .indexOutOfRange ∧
    ((∃ result, executeQuery up readAll ast = .ok result) ∨
      ∃ e, executeQuery up readAll ast = .error e ∧ e ≠ .indexOutOfRange) := by
  have main : executeQuery up readAll ast ≠ .error .indexOutOfRange := by
    unfold executeQuery
    cases hs : scanClauses up readAll ScanState.init ast with
    | error e =>
        simp only
        intro e2
        cases e2
        exact scanClauses_error_kind ast ScanState.init hs
    | ok st =>
        simp only
        apply runQuery_in_bounds
        intro t ht
        obtain ⟨_, _, _, _, _, e6, e7⟩ := scanClauses_init hs
        cases hF : lastOfType "FROM".toList ast with
        | none => rw [e6 hF] at ht; cases ht
        | some f =>
            obtain ⟨t2, hl, ht2⟩ := e7 f hF
            rw [ht] at ht2
            cases ht2
            exact hinv f t hF hl
  refine ⟨main, ?_⟩
  cases hr : executeQuery up readAll ast with
  | ok result => exact Or.inl ⟨result, rfl⟩
  | error e =>
      right
      refine ⟨e, rfl, ?_⟩
      intro he
      rw [he] at hr
      exact main hr

/-- C17, at the clause sequence of `SELECT AGE FROM users WHERE NAME = Bob`. -/
theorem executeQuery_in_bounds_witness :
    (∀ row ∈ usersTable.Rows, row.length = usersTable.Headers.length) ∧
    executeQuery id sampleFiles
        [mkNode "SELECT" "AGE" "" "" "", mkNode "FROM" "users" "" "" "",
          mkNode "WHERE" "" "NAME" "=" "Bob"] ≠ .error .indexOutOfRange :=
  ⟨by decide, (executeQuery_in_bounds id sampleFiles
      [mkNode "SELECT" "AGE" "" "" "", mkNode "FROM" "users" "" "" "",
        mkNode "WHERE" "" "NAME" "=" "Bob"]
      (fun f t hF hload => by
        have e1 : lastOfType "FROM".toList
            [mkNode "SELECT" "AGE" "" "" "", mkNode "FROM" "users" "" "" "",
              mkNode "WHERE" "" "NAME" "=" "Bob"] = some (mkNode "FROM" "users" "" "" "") := rfl
        rw [e1] at hF
        cases hF
        have e2 : loadCSVTable id sampleFiles
            ((mkNode "FROM" "users" "" "" "").Value ++ ".csv".toList) = .ok usersTable := rfl
        rw [e2] at hload
        cases hload
        decide)).1⟩

/-! ## Lemmas on `strings.Split` and `strings.Join` -/

theorem splitGo_end (v cur : Str) (hv : hasCommaSpace v = false) :
    splitGo ", ".toList 0 cur v = [cur ++ v] := by
  induction v generalizing cur with
  | nil => simp [splitGo]
  | cons c rest ih =>
      have hpre : (", ".toList).isPrefixOf (c :: rest) = false := by
        cases rest with
        | nil => simp [List.isPrefixOf]
        | cons d rest2 =>
            simp only [hasCommaSpace, Bool.or_eq_false_iff, Bool.and_eq_false_iff,
              decide_eq_false_iff_not] at hv
            rcases hv.1 with h | h <;> simp [List.isPrefixOf, h, Ne.symm h]
      have hrest : hasCommaSpace rest = false := by
        cases rest with
        | nil => rfl
        | cons d rest2 =>
            simp only [hasCommaSpace, Bool.or_eq_false_iff] at hv
            exact hv.2
      rw [splitGo, hpre]
      simp only [Bool.false_eq_true, if_false]
      rw [ih _ hrest]
      simp

theorem splitGo_sep (v cur rest2 : Str) (hv : hasCommaSpace v = false) :
    splitGo ", ".toList 0 cur (v ++ ',' :: ' ' :: rest2) =
      (cur ++ v) :: splitGo ", ".toList 0 [] rest2 := by
  induction v generalizing cur with
  | nil =>
      have hpre : (", ".toList).isPrefixOf (',' :: ' ' :: rest2) = true := by
        simp [List.isPrefixOf]
      rw [List.nil_append, splitGo, hpre]
      simp only [if_true, List.append_nil]
      rfl
  | cons c rest ih =>
      have hpre : (", ".toList).isPrefixOf (c :: (rest ++ ',' :: ' ' :: rest2)) = false := by
        cases rest with
        | nil =>
            by_cases hc : c = ','
            · simp [List.isPrefixOf, hc]
            · simp [List.isPrefixOf, Ne.symm hc]
        | cons d rest3 =>
            simp only [hasCommaSpace, Bool.or_eq_false_iff, Bool.and_eq_false_iff,
              decide_eq_false_iff_not] at hv
            rcases hv.1 with h | h <;> simp [List.isPrefixOf, h, Ne.symm h]
      have hrest : hasCommaSpace rest = false := by
        cases rest with
        | nil => rfl
        | cons d rest3 =>
            simp only [hasCommaSpace, Bool.or_eq_false_iff] at hv
            exact hv.2
      rw [List.cons_append, splitGo, hpre]
      simp only [Bool.false_eq_true, if_false]
      rw [ih _ hrest]
      simp

/-- Splitting what was joined with a comma and a space gives the pieces back,
when there is at least one piece and no piece contains a comma followed by a
space. -/
theorem split_join (vs : List Str) (hne : vs ≠ [])
    (hvs : ∀ v ∈ vs, hasCommaSpace v = false) :
    Split (Join vs ", ".toList) ", ".toList = vs := by
  unfold Split
  induction vs with
  | nil => exact absurd rfl hne
  | cons a rest ih =>
      cases rest with
      | nil =>
          simp only [Join]
          rw [splitGo_end a [] (hvs a (List.mem_cons_self _ _))]
          rfl
      | cons b rest2 =>
          have e : Join (a :: b :: rest2) ", ".toList =
              a ++ ',' :: ' ' :: Join (b :: rest2) ", ".toList := by
            simp only [Join, List.append_assoc]
            rfl
          rw [e, splitGo_sep a [] _ (hvs a (List.mem_cons_self _ _)),
            ih (by simp) (fun v hv => hvs v (List.mem_cons_of_mem _ hv))]
          rfl

theorem join_ne_star (vs : List Str) (hne : vs ≠ []) (hstar : vs ≠ ["*".toList]) :
    Join vs ", ".toList ≠ "*".toList := by
  cases vs with
  | nil => exact absurd rfl hne
  | cons a rest =>
      cases rest with
      | nil =>
          simp only [Join]
          intro e
          apply hstar
          rw [e]
      | cons b rest2 =>
          intro e
          have hl := congrArg List.length e
          simp only [Join, List.length_append] at hl
          have h1 : (", ".toList).length = 2 := rfl
          have h2 : ("*".toList).length = 1 := rfl
          omega

set_option maxRecDepth 100000 in
/-- Upper-casing an ASCII character neither produces nor removes a comma, a
space or an asterisk. -/
theorem ascii_mark_table : ∀ n, n < 128 →
    (decide (upperRune (Char.ofNat n) = ',') = decide (Char.ofNat n = ',')) ∧
    (decide (upperRune (Char.ofNat n) = ' ') = decide (Char.ofNat n = ' ')) ∧
    (decide (upperRune (Char.ofNat n) = '*') = decide (Char.ofNat n = '*')) := by
  decide

theorem toUpperRune_mark {up : Char → Char} (hup : CaseTableOk up) (r : Char) :
    (toUpperRune up r = ',' ↔ r = ',') ∧ (toUpperRune up r = ' ' ↔ r = ' ') ∧
    (toUpperRune up r = '*' ↔ r = '*') := by
  by_cases h : r.toNat ≤ 127
  · have htab := ascii_mark_table r.toNat (by omega)
    rw [Char.ofNat_toNat] at htab
    rw [toUpperRune_ascii up h]
    simp only [decide_eq_decide] at htab
    exact htab
  · have hr : toUpperRune up r = up r := by simp only [toUpperRune, if_neg h]
    rw [hr]
    obtain ⟨h1, h2, h3⟩ := hup r h
    refine ⟨⟨fun e => absurd e h1, ?_⟩, ⟨fun e => absurd e h2, ?_⟩, ⟨fun e => absurd e h3, ?_⟩⟩
    · intro e; subst e; exact absurd (by decide) h
    · intro e; subst e; exact absurd (by decide) h
    · intro e; subst e; exact absurd (by decide) h

theorem hasCommaSpace_toUpper {up : Char → Char} (hup : CaseTableOk up) (tok : Str) :
    hasCommaSpace (ToUpper up tok) = hasCommaSpace tok := by
  induction tok with
  | nil => rfl
  | cons c1 t ih =>
      cases t with
      | nil => rfl
      | cons c2 rest =>
          have e : ToUpper up (c1 :: c2 :: rest) =
              toUpperRune up c1 :: ToUpper up (c2 :: rest) := rfl
          have e2 : ToUpper up (c2 :: rest) = toUpperRune up c2 :: ToUpper up rest := rfl
          rw [e]
          rw [e2] at ih ⊢
          simp only [hasCommaSpace] at ih ⊢
          rw [ih]
          have h1 := (toUpperRune_mark hup c1).1
          have h2 := (toUpperRune_mark hup c2).2.1
          simp only [decide_eq_decide.mpr h1, decide_eq_decide.mpr h2]

theorem toUpper_star {up : Char → Char} (hup : CaseTableOk up) (tok : Str) :
    ToUpper up tok = "*".toList ↔ tok = "*".toList := by
  cases tok with
  | nil => simp [ToUpper]
  | cons c rest =>
      cases rest with
      | nil =>
          have h := (toUpperRune_mark hup c).2.2
          simp only [ToUpper, List.map_cons, List.map_nil]
          constructor
          · intro e
            have : toUpperRune up c = '*' := by
              have := List.head_eq_of_cons_eq e
              exact this
            rw [h.mp this]
            rfl
          · intro e
            have : c = '*' := List.head_eq_of_cons_eq e
            rw [h.mpr this]
            rfl
      | cons d rest2 =>
          constructor
          · intro e
            have := congrArg List.length e
            simp [ToUpper] at this
          · intro e
            have := congrArg List.length e
            simp at this

/-! ## The claim on the SELECT list between parser and executor -/

/-- C20. Round trip of the SELECT list: when the main loop of `parseSQL` is at a
SELECT keyword whose column tokens form a non-empty list, other than the single
token `*`, none of which contains a comma followed by a space, the executor,
scanning the SELECT node the parser builds, obtains as column list exactly
those tokens upper-cased, in the same order and with the same length,
duplicates kept.  The Unicode case table is assumed to map no rune beyond ASCII
to a comma, a space or an asterisk. -/
theorem select_round_trip (up : Char → Char) (readAll : Str → Option (List (List Str)))
    (hup : CaseTableOk up) (kw : Str) (rest : List Str) (ast : List SQLNode)
    (st : ScanState)
    (hkw : ToUpper up kw = "SELECT".toList)
    (hne : columnTokens up rest ≠ [])
    (hstar : columnTokens up rest ≠ ["*".toList])
    (hcs : ∀ tok ∈ columnTokens up rest, hasCommaSpace tok = false) :
    ∃ node, parseStep up kw rest ast = .ok (rest.dropWhile (notFrom up), ast ++ [node]) ∧
      scanNode up readAll st node =
        .ok { st with selectedColumns := some ((columnTokens up rest).map (ToUpper up)) } ∧
      Split node.Value ", ".toList = (columnTokens up rest).map (ToUpper up) ∧
      ((columnTokens up rest).map (ToUpper up)).length = (columnTokens up rest).length := by
  refine ⟨valueNode "SELECT".toList (selectValue up rest),
    parseStep_select up kw rest ast hkw, ?_, ?_, List.length_map _ _⟩
  · have hne2 : (columnTokens up rest).map (ToUpper up) ≠ [] := by
      intro e
      exact hne (List.map_eq_nil_iff.mp e)
    have hstar2 : (columnTokens up rest).map (ToUpper up) ≠ ["*".toList] := by
      intro e
      apply hstar
      cases hct : columnTokens up rest with
      | nil => rw [hct] at e; simp at e
      | cons a tl =>
          rw [hct] at e
          cases tl with
          | nil =>
              simp only [List.map_cons, List.map_nil, List.cons.injEq, and_true] at e
              rw [(toUpper_star hup a).mp e]
          | cons b tl2 => simp at e
    have hv : ¬ ((valueNode "SELECT".toList (selectValue up rest)).Value = "*".toList) :=
      join_ne_star _ hne2 hstar2
    have hsplit : Split (selectValue up rest) ", ".toList =
        (columnTokens up rest).map (ToUpper up) := by
      apply split_join _ hne2
      intro v hv
      obtain ⟨tok, htok, rfl⟩ := List.mem_map.mp hv
      rw [hasCommaSpace_toUpper hup]
      exact hcs tok htok
    have hT : (valueNode "SELECT".toList (selectValue up rest)).Type_ = "SELECT".toList := rfl
    have hV : (valueNode "SELECT".toList (selectValue up rest)).Value = selectValue up rest :=
      rfl
    unfold scanNode
    rw [if_pos hT, if_neg hv, hV, hsplit]
  · apply split_join
    · intro e
      exact hne (List.map_eq_nil_iff.mp e)
    · intro v hv
      obtain ⟨tok, htok, rfl⟩ := List.mem_map.mp hv
      rw [hasCommaSpace_toUpper hup]
      exact hcs tok htok

/-- C20, at the tokens of `select name, age, name from users`. -/
theorem select_round_trip_witness :
    columnTokens id sampleSelectTokens = ["name".toList, "age".toList, "name".toList] ∧
    ∃ node, parseStep id "select".toList sampleSelectTokens [] =
        .ok (sampleSelectTokens.dropWhile (notFrom id), [] ++ [node]) ∧
      scanNode id sampleFiles ScanState.init node =
        .ok { ScanState.init with
              selectedColumns := some ((columnTokens id sampleSelectTokens).map (ToUpper id)) } ∧
      Split node.Value ", ".toList = (columnTokens id sampleSelectTokens).map (ToUpper id) ∧
      ((columnTokens id sampleSelectTokens).map (ToUpper id)).length =
        (columnTokens id sampleSelectTokens).length :=
  ⟨by decide, select_round_trip id sampleFiles
    (fun r h => ⟨fun e => h (by rw [show r = ',' from e]; decide),
      fun e => h (by rw [show r = ' ' from e]; decide),
      fun e => h (by rw [show r = '*' from e]; decide)⟩)
    "select".toList sampleSelectTokens [] ScanState.init rfl (by decide) (by decide)
    (by decide)⟩

end Gosql
